import Mathlib

/-!
Verification of the camofox-browser session/tab core against its
natural-language specification.

The development shallowly embeds the relevant JavaScript from
`src/server.js` and `src/lib/youtube.js`:

* `windowSnapshot` — the snapshot windowing protocol (`src/lib/youtube.js`,
  lines 292-325), modelled over `List Char` (a JS string as a sequence of
  code units).
* `withTabLock` — the per-tab promise-chaining lock (`src/server.js`,
  lines 1491-1514), modelled as a deterministic event machine over the
  JS microtask queue.
* `buildRefs` and the two annotate passes — the accessibility-tree
  reference resolver (`src/server.js`, lines 1716-1776, 1912-1948 and
  2572-2593).
* The session / tab-group registry and the route-level state transitions
  used by the quota, isolation, error-atomicity and invariant claims.

All definitions are executable; JS `Map` objects are embedded either as
association lists (when insertion order matters) or as update functions
(when only get/set is used), and JS regular expressions are embedded as
explicit character-list parsers whose equivalence with the source regex
is argued in the accompanying comments.
-/

/-! ### Basic character helpers (JS character classes) -/

/-- JS regex `\s` (whitespace class), restricted to the code points that can
actually occur here; the full ECMAScript class also contains further exotic
Unicode space separators, which never affect the claims. -/
def jsSpace (c : Char) : Bool :=
  c == ' ' || c == '\t' || c == '\n' || c == '\r' || c == '\x0b' || c == '\x0c' ||
  c == '\u00A0' || c == '\uFEFF'

/-- JS regex `\w`: ASCII letters, digits and underscore. -/
def wordChar (c : Char) : Bool :=
  (decide ('a' ≤ c) && decide (c ≤ 'z')) || (decide ('A' ≤ c) && decide (c ≤ 'Z')) ||
  (decide ('0' ≤ c) && decide (c ≤ '9')) || c == '_'

/-- JS regex `.` (without the `s` flag) matches every character except line
terminators `\n`, `\r`, U+2028 and U+2029. -/
def jsDotChar (c : Char) : Bool :=
  !(c == '\n' || c == '\r' || c == '\u2028' || c == '\u2029')

/-- JS `String.prototype.toLowerCase`, character-wise (ASCII is all that the
role words produced by `\w+` require). -/
def lowerChar (c : Char) : Char :=
  if 'A' ≤ c ∧ c ≤ 'Z' then Char.ofNat (c.toNat + 32) else c

/-- Lower-casing of a whole string, character by character. -/
def toLowerStr (s : String) : String :=
  String.mk (s.data.map lowerChar)

/-- Decimal digit sequence of a natural number, most significant first.
Structural fuel recursion (`fuel = n + 1` always suffices) so that the
definition reduces inside `decide`. This embeds JS number-to-string
conversion for the non-negative integers used as counters. -/
def natDigitsGo : Nat → Nat → List Char → List Char
  | 0, _, acc => acc
  | fuel + 1, n, acc =>
    if n < 10 then Nat.digitChar n :: acc
    else natDigitsGo fuel (n / 10) (Nat.digitChar (n % 10) :: acc)

/-- Decimal representation of a natural number as a string. -/
def natToStr (n : Nat) : String :=
  String.mk (natDigitsGo (n + 1) n [])

/-- JS `String(x)` applied to an integer (the only number shape userIds take). -/
def jsIntToStr (n : Int) : String :=
  if n < 0 then "-" ++ natToStr n.natAbs else natToStr n.natAbs

/-- Containment of `pat` in `hay` starting at some position; embeds the JS
regex test `/pat/.test(hay)` for a pattern of plain characters. -/
def startsWithList : List Char → List Char → Bool
  | _, [] => true
  | [], _ :: _ => false
  | h :: hs, p :: ps => h == p && startsWithList hs ps

/-- Substring test on character lists. -/
def hasSubstrList : List Char → List Char → Bool
  | hay, pat =>
    if startsWithList hay pat then true
    else
      match hay with
      | [] => false
      | _ :: rest => hasSubstrList rest pat

/-- Case-insensitive substring test, used to embed the `/…/i` regex tests in
`SKIP_PATTERNS`. -/
def hasSubstrCI (hay pat : String) : Bool :=
  hasSubstrList (toLowerStr hay).data (toLowerStr pat).data

/-! ### SnapshotWindow (`src/lib/youtube.js`, lines 292-325)

A JS string is embedded as a `List Char`; `yaml.slice(a, b)` with
`0 ≤ a` is `(l.take b).drop a` and `yaml.slice(-k)` (with `k ≤ length`)
is `l.drop (l.length - k)`.  The source returns an object whose
`hasMore` / `nextOffset` fields are absent in the short-text case; an
absent field is embedded as `false` / `none`. -/

def MAX_SNAPSHOT_CHARS : Nat := 80000

def SNAPSHOT_TAIL_CHARS : Nat := 5000

structure SnapshotWindow where
  text : List Char
  truncated : Bool
  totalChars : Nat
  offset : Nat
  hasMore : Bool := false
  nextOffset : Option Nat := none
deriving Repr, DecidableEq

/-- The truncation marker appended between the content slice and the tail. -/
def snapshotMarker (chunkEnd total : Nat) (more : Bool) : List Char :=
  if more then
    ("\n[... truncated at char " ++ natToStr chunkEnd ++ " of " ++ natToStr total ++
      ". Call snapshot with offset=" ++ natToStr chunkEnd ++
      " to see more. Pagination links below. ...]\n").data
  else ("\n").data

/-- `windowSnapshot(yaml, offset)` from `src/lib/youtube.js`.  The JS guard
`if (!yaml)` is falsiness of a string, i.e. emptiness; `offset` is an `Int`
because the source clamps negative offsets with `Math.max(0, offset)`. -/
def windowSnapshot (yaml : List Char) (offset : Int) : SnapshotWindow :=
  if yaml.length = 0 then
    { text := [], truncated := false, totalChars := 0, offset := 0 }
  else
    let total := yaml.length
    if total ≤ MAX_SNAPSHOT_CHARS then
      { text := yaml, truncated := false, totalChars := total, offset := 0 }
    else
      let contentBudget := MAX_SNAPSHOT_CHARS - SNAPSHOT_TAIL_CHARS - 200
      let tail := yaml.drop (total - SNAPSHOT_TAIL_CHARS)
      let clampedOffset := min (max 0 offset).toNat (total - SNAPSHOT_TAIL_CHARS)
      let chunk := (yaml.take (clampedOffset + contentBudget)).drop clampedOffset
      let chunkEnd := clampedOffset + contentBudget
      let hasMore := decide (chunkEnd < total - SNAPSHOT_TAIL_CHARS)
      { text := chunk ++ snapshotMarker chunkEnd total hasMore ++ tail,
        truncated := true,
        totalChars := total,
        offset := clampedOffset,
        hasMore := hasMore,
        nextOffset := if hasMore then some chunkEnd else none }

/-- The half-open character range `[offset, end)` of the content slice that a
single `windowSnapshot` call at a (clamped) offset contributes, for an
oversized text. -/
def windowRange (yaml : List Char) (offset : Nat) : Nat × Nat :=
  let total := yaml.length
  let contentBudget := MAX_SNAPSHOT_CHARS - SNAPSHOT_TAIL_CHARS - 200
  let co := min offset (total - SNAPSHOT_TAIL_CHARS)
  (co, min (co + contentBudget) total)

/-- Caller-side iteration of the windowing protocol: start at an offset,
record the content range of each call, and feed `nextOffset` back until
`hasMore` is false.  Mirrors the pagination loop the spec describes. -/
def iterRanges (yaml : List Char) (offset : Nat) : List (Nat × Nat) :=
  let w := windowSnapshot yaml (Int.ofNat offset)
  match w.nextOffset with
  | none => [windowRange yaml offset]
  | some nxt =>
    if _hlt : yaml.length - offset ≤ yaml.length - nxt then [windowRange yaml offset]
    else windowRange yaml offset :: iterRanges yaml nxt
termination_by yaml.length - offset
decreasing_by omega

/-- Membership of a character index in a half-open range. -/
def inRange (i : Nat) (r : Nat × Nat) : Bool :=
  decide (r.1 ≤ i) && decide (i < r.2)

/-! ### TabLock (`src/server.js`, lines 1487-1514)

`withTabLock` keeps, per tab, the promise of the most recently *started*
operation in the `tabLocks` map.  A new call reads the map entry at
submission time, `await`s it (ignoring failure), then starts its own
operation, stores its promise, and on settlement deletes the entry if it
is still its own.  The machine below embeds this for a single tab,
following JS semantics: `await p` attaches a continuation to `p` in
attachment order, and when `p` settles its continuations run in that
order.  A call's own `try { return await promise } finally { … }`
continuation is attached when the operation starts (before any later
submission can attach to the same promise). -/

/-- Continuations that can be attached to an operation's promise. -/
inductive Reaction where
  /-- Operation `j` was awaiting this promise inside `withTabLock` and now
  starts its own operation. -/
  | resume (j : Nat)
  /-- The `finally` cleanup of operation `j` itself. -/
  | cleanup (j : Nat)
deriving Repr, DecidableEq

/-- Lifecycle phase of one submitted operation. -/
inductive OpPhase where
  | idle
  | waiting
  | running
  | done
deriving Repr, DecidableEq

/-- State of the lock machinery for one `tabId`: the `tabLocks` entry, the
phase of every operation, and the continuations attached to every
operation's promise. -/
structure LockState where
  lockMap : Option Nat
  phase : Nat → OpPhase
  reactions : Nat → List Reaction

/-- The synchronous part of `withTabLock` after the initial `await`:
`const promise = operation(); tabLocks.set(tabId, promise); await promise`.
The operation starts running, its promise is stored, and its own cleanup
continuation is attached to its promise. -/
def startOp (s : LockState) (j : Nat) : LockState :=
  { lockMap := some j,
    phase := fun i => if i = j then OpPhase.running else s.phase i,
    reactions := fun i => if i = j then s.reactions i ++ [Reaction.cleanup j] else s.reactions i }

/-- Run one continuation of a settled promise. -/
def runReaction (s : LockState) : Reaction → LockState
  | Reaction.cleanup j =>
    if s.lockMap = some j then { s with lockMap := none } else s
  | Reaction.resume j => startOp s j

/-- External events: a caller submits operation `j` through `withTabLock`,
or operation `j`'s engine work settles. -/
inductive LockEvent where
  | submit (j : Nat)
  | settle (j : Nat)
deriving Repr, DecidableEq

/-- One step of the machine.  `submit j` reads the current `tabLocks` entry:
if a pending promise is stored, `j` awaits it (attaching a `resume`
continuation); otherwise `j` starts at once.  `settle p` marks `p` done and
runs the continuations attached to `p`'s promise in attachment order. -/
def lockStep (s : LockState) : LockEvent → LockState
  | LockEvent.submit j =>
    match s.lockMap with
    | some p =>
      if s.phase p = OpPhase.done then startOp s j
      else
        { s with
          phase := fun i => if i = j then OpPhase.waiting else s.phase i,
          reactions := fun i =>
            if i = p then s.reactions i ++ [Reaction.resume j] else s.reactions i }
    | none => startOp s j
  | LockEvent.settle p =>
    if s.phase p = OpPhase.running then
      (s.reactions p).foldl runReaction
        { s with phase := fun i => if i = p then OpPhase.done else s.phase i }
    else s

/-- Run the machine from the empty state. -/
def lockRun (evs : List LockEvent) : LockState :=
  evs.foldl lockStep
    { lockMap := none, phase := fun _ => OpPhase.idle, reactions := fun _ => [] }

/-! ### RefResolver (`src/server.js`, lines 1355-1368, 1716-1776, 1912-1948, 2572-2593)

The accessibility tree text is split on `'\n'`; every line is tested
against the node pattern.  The three regexes involved are

* build pass: `^\s*-\s+(\w+)(?:\s+"([^"]*)")?`
* primary annotate pass: `^(\s*-\s+)(\w+)(\s+"([^"]*)")?(.*)$`
* OpenClaw annotate pass: `^(\s*)-\s+(\w+)(?:\s+"([^"]*)")?` and its
  replacement `^(\s*-\s+\w+)`.

All share the head `\s*-\s+\w+(\s+"[^"]*")?`, which `parseHead` embeds;
no backtracking can produce a different head decomposition because `\s`,
`\w`, `-` and `"` are pairwise disjoint and `[^"]*` stops exactly at the
first quote.  The primary annotate regex additionally requires the
`$`-anchored suffix `(.*)` to match, i.e. the remainder after the head
must contain no character excluded from `.`; if the with-name head fails
that check then so does the nameless alternative (its remainder is a
superset), so the whole line fails to match — `annotateMatch` embeds
exactly this. -/

/-- JS `str.split('\n')`: substrings between newline characters, empties
preserved (structural, so it reduces inside `decide`). -/
def splitLinesGo (cur : List Char) : List Char → List String
  | [] => [String.mk cur.reverse]
  | c :: cs =>
    if c = '\n' then String.mk cur.reverse :: splitLinesGo [] cs
    else splitLinesGo (c :: cur) cs

/-- Split a string on newlines. -/
def splitLines (s : String) : List String :=
  splitLinesGo [] s.data

/-- JS `lines.join('\n')`. -/
def joinLines : List String → String
  | [] => ""
  | [l] => l
  | l :: ls => l ++ "\n" ++ joinLines ls

/-- Result of matching the shared head of the node-line regexes. -/
structure NodeMatch where
  /-- the `\s*-\s+` lead-in (group 1 of the primary annotate regex) -/
  pre : List Char
  /-- the `\w+` role word -/
  role : String
  /-- the raw `\s+"…"` text of the optional name group (`[]` if absent) -/
  nameRaw : List Char
  /-- the captured name (`none` if the group did not participate) -/
  name : Option String
  /-- the characters remaining after the head -/
  rest : List Char
deriving Repr, DecidableEq

/-- The optional name group `(?:\s+"([^"]*)")?`: one or more spaces, a
quote, the name (no quotes), a closing quote. -/
def parseNameGroup (cs : List Char) : Option (List Char × String × List Char) :=
  let sp := cs.takeWhile jsSpace
  let r1 := cs.dropWhile jsSpace
  if sp.isEmpty then none
  else
    match r1 with
    | '"' :: r2 =>
      let nm := r2.takeWhile (fun c => c != '"')
      let r3 := r2.dropWhile (fun c => c != '"')
      match r3 with
      | '"' :: r4 => some (sp ++ '"' :: (nm ++ ['"']), String.mk nm, r4)
      | _ => none
    | _ => none

/-- The shared regex head `^(\s*-\s+)(\w+)((?:\s+"([^"]*)")?)`. -/
def parseHead (cs : List Char) : Option NodeMatch :=
  let sp1 := cs.takeWhile jsSpace
  match cs.dropWhile jsSpace with
  | '-' :: r2 =>
    let sp2 := r2.takeWhile jsSpace
    let r3 := r2.dropWhile jsSpace
    if sp2.isEmpty then none
    else
      let w := r3.takeWhile wordChar
      let r4 := r3.dropWhile wordChar
      if w.isEmpty then none
      else
        match parseNameGroup r4 with
        | some (raw, nm, r5) =>
          some { pre := sp1 ++ '-' :: sp2, role := String.mk w, nameRaw := raw,
                 name := some nm, rest := r5 }
        | none =>
          some { pre := sp1 ++ '-' :: sp2, role := String.mk w, nameRaw := [],
                 name := none, rest := r4 }
  | _ => none

/-- The build-pass match `line.match(/^\s*-\s+(\w+)(?:\s+"([^"]*)")?/)`,
returning the captured role and optional name. -/
def buildMatch (line : String) : Option (String × Option String) :=
  match parseHead line.data with
  | some m => some (m.role, m.name)
  | none => none

/-- The primary annotate-pass match
`line.match(/^(\s*-\s+)(\w+)(\s+"([^"]*)")?(.*)$/)`.  The trailing
`(.*)$` only matches when the remainder contains no `.`-excluded
character (see the section comment for why backtracking cannot rescue a
line that fails this check). -/
def annotateMatch (line : String) : Option NodeMatch :=
  match parseHead line.data with
  | some m => if m.rest.all jsDotChar then some m else none
  | none => none

/-- `INTERACTIVE_ROLES` from `src/server.js` (combobox deliberately absent). -/
def INTERACTIVE_ROLES : List String :=
  ["button", "link", "textbox", "checkbox", "radio",
   "menuitem", "tab", "searchbox", "slider", "spinbutton", "switch"]

/-- `SKIP_PATTERNS.some(p => p.test(name))`: the four case-insensitive
regexes `/date/i, /calendar/i, /picker/i, /datepicker/i` are plain
substring tests. -/
def skipMatches (name : String) : Bool :=
  hasSubstrCI name "date" || hasSubstrCI name "calendar" ||
  hasSubstrCI name "picker" || hasSubstrCI name "datepicker"

/-- The guard `name && SKIP_PATTERNS.some(p => p.test(name))`: the capture
may be absent (`undefined`) or the empty string, both falsy in JS. -/
def skipGuard (name : Option String) : Bool :=
  match name with
  | some n => n != "" && skipMatches n
  | none => false

/-- One entry of a tab's reference table: `{role, name, nth}`. -/
structure RefInfo where
  role : String
  name : String
  nth : Nat
deriving Repr, DecidableEq

/-- The `${role}:${name}` occurrence-counting key used by both passes. -/
def ckey (role name : String) : String :=
  role ++ ":" ++ name

/-- The `${role}:${name}:${nth}` lookup key of the annotation map. -/
def tkey (role name : String) (nth : Nat) : String :=
  role ++ ":" ++ name ++ ":" ++ natToStr nth

def MAX_SNAPSHOT_NODES : Nat := 500

/-- Mutable state of the build pass: `refCounter`, the `seenCounts` map
(a JS `Map` read with `|| 0`, embedded as a total function), and the
insertion-ordered `refs` map. -/
structure BuildState where
  refCounter : Nat
  seenCounts : String → Nat
  refs : List (String × RefInfo)

/-- The body of the build-pass loop for one line (`src/server.js`,
lines 1752-1771). -/
def buildStep (st : BuildState) (line : String) : BuildState :=
  match buildMatch line with
  | none => st
  | some (role, name) =>
    let normalizedRole := toLowerStr role
    if normalizedRole = "combobox" then st
    else if skipGuard name then st
    else if INTERACTIVE_ROLES.contains normalizedRole then
      let normalizedName := name.getD ""
      let key := ckey normalizedRole normalizedName
      let nth := st.seenCounts key
      { refCounter := st.refCounter + 1,
        seenCounts := fun k => if k = key then nth + 1 else st.seenCounts k,
        refs := st.refs ++ [("e" ++ natToStr st.refCounter,
                             { role := normalizedRole, name := normalizedName, nth := nth })] }
    else st

/-- The build-pass loop with its node cap: `if (refCounter > MAX_SNAPSHOT_NODES) break`. -/
def buildRefsGo : BuildState → List String → List (String × RefInfo)
  | st, [] => st.refs
  | st, l :: ls =>
    if st.refCounter > MAX_SNAPSHOT_NODES then st.refs
    else buildRefsGo (buildStep st l) ls

/-- `buildRefs` (`src/server.js`, lines 1716-1776) restricted to its pure
core: the tree text is already in hand (the engine fetch is opaque) and is
split on newlines exactly as the source does. -/
def buildRefs (lines : List String) : List (String × RefInfo) :=
  buildRefsGo { refCounter := 1, seenCounts := fun _ => 0, refs := [] } lines

/-- `buildRefs` applied to a whole tree text. -/
def buildRefsOfText (yaml : String) : List (String × RefInfo) :=
  buildRefs (splitLines yaml)

/-- The `refsByKey` map of the primary annotate pass: iterate the reference
table in insertion order and map `${role}:${name}:${nth}` to the ref id
(later entries would overwrite earlier ones, as JS `Map.set` does). -/
def refsByKey (refs : List (String × RefInfo)) : String → Option String :=
  refs.foldl
    (fun acc p => fun k => if k = tkey p.2.role p.2.name p.2.nth then some p.1 else acc k)
    (fun _ => none)

/-- The annotated form of a matched line:
`${prefix}${role}${nameMatch || ''} [${refId}]${suffix}`. -/
def spliceWith (m : NodeMatch) (refId : String) : String :=
  String.mk m.pre ++ m.role ++ String.mk m.nameRaw ++ " [" ++ refId ++ "]" ++ String.mk m.rest

/-- The primary annotate pass for one line (`src/server.js`, lines
1925-1948): reapply the filters, recount the `(role, name)` occurrence,
look the triple up, and splice the ref id in.  Returns the output line and
the updated `annotationCounts` map. -/
def annotateLine (byKey : String → Option String) (counts : String → Nat)
    (line : String) : String × (String → Nat) :=
  match annotateMatch line with
  | none => (line, counts)
  | some m =>
    let normalizedRole := toLowerStr m.role
    if normalizedRole = "combobox" then (line, counts)
    else if skipGuard m.name then (line, counts)
    else if INTERACTIVE_ROLES.contains normalizedRole then
      let normalizedName := m.name.getD ""
      let countKey := ckey normalizedRole normalizedName
      let nth := counts countKey
      let counts2 := fun k => if k = countKey then nth + 1 else counts k
      match byKey (tkey normalizedRole normalizedName nth) with
      | some refId => (spliceWith m refId, counts2)
      | none => (line, counts2)
    else (line, counts)

/-- `lines.map(...)` with the closure-captured `annotationCounts` map:
a stateful map over the lines. -/
def annotateLines (byKey : String → Option String) (counts : String → Nat) :
    List String → List String
  | [] => []
  | l :: ls =>
    let r := annotateLine byKey counts l
    r.1 :: annotateLines byKey r.2 ls

/-- The primary snapshot endpoint's annotation step
(`GET /tabs/:tabId/snapshot`): guard `annotatedYaml && refs.size > 0`,
split, annotate, re-join. -/
def annotateSnapshot (refs : List (String × RefInfo)) (yaml : String) : String :=
  if yaml ≠ "" ∧ refs.length > 0 then
    joinLines (annotateLines (refsByKey refs) (fun _ => 0) (splitLines yaml))
  else yaml

/-- The OpenClaw alias's ref map (`src/server.js`, lines 2574-2578): keyed
by `${role}:${name}` only, first entry wins
(`if (!refsByKey.has(key)) refsByKey.set(key, refId)`). -/
def refsByKeyOC (refs : List (String × RefInfo)) : String → Option String :=
  refs.foldl
    (fun acc p => fun k =>
      if k = ckey p.2.role p.2.name then
        match acc k with
        | some r => some r
        | none => some p.1
      else acc k)
    (fun _ => none)

/-- The OpenClaw alias's per-line annotation (`src/server.js`, lines
2581-2592): match the head, look up `${role}:${name}` (raw role, no
lower-casing, no filters, no occurrence counting) and, if found, insert
` [refId]` after the `^(\s*-\s+\w+)` prefix. -/
def annotateLineOC (byKey : String → Option String) (line : String) : String :=
  match parseHead line.data with
  | none => line
  | some m =>
    match byKey (m.role ++ ":" ++ (m.name.getD "")) with
    | some refId =>
      String.mk m.pre ++ m.role ++ " [" ++ refId ++ "]" ++ String.mk m.nameRaw ++ String.mk m.rest
    | none => line

/-- The OpenClaw alias's annotation step (`GET /snapshot`). -/
def annotateSnapshotOC (refs : List (String × RefInfo)) (yaml : String) : String :=
  if yaml ≠ "" ∧ refs.length > 0 then
    joinLines ((splitLines yaml).map (annotateLineOC (refsByKeyOC refs)))
  else yaml

/-! #### Specification-side notions for the reference resolver

`lineKey?` is the eligibility predicate the claim describes (the build
pass's filters), and `docTriple` assigns every eligible line its
`(role, name, occurrence)` triple, occurrences counted over earlier
eligible lines in document order. -/

/-- The `(normalizedRole, normalizedName)` of a line that passes the build
pass's filters, `none` otherwise. -/
def lineKey? (line : String) : Option (String × String) :=
  match buildMatch line with
  | none => none
  | some (role, name) =>
    let normalizedRole := toLowerStr role
    if normalizedRole = "combobox" then none
    else if skipGuard name then none
    else if INTERACTIVE_ROLES.contains normalizedRole then
      some (normalizedRole, name.getD "")
    else none

/-- Number of eligible lines with pair key `k` strictly before index `i`. -/
def docCount (lines : List String) (i : Nat) (k : String × String) : Nat :=
  ((lines.take i).filterMap lineKey?).count k

/-- The document-order `(role, name, occurrence)` triple of line `i`. -/
def docTriple (lines : List String) (i : Nat) : Option RefInfo :=
  match lineKey? (lines.getD i "") with
  | none => none
  | some (r, n) => some { role := r, name := n, nth := docCount lines i (r, n) }

/-! ### SessionRegistry, TabGroup and route-level transitions
(`src/server.js`, lines 1480-1626, 1814-1893, 2318-2337, 2611-2754)

JS `Map`s are embedded as association lists so that iteration order
(insertion order) is preserved; `Map.set` replaces in place or appends,
`Map.delete` filters, `Map.get` is the first (unique) match.  The opaque
Playwright handles (browser context, page) are embedded as numbers; the
`lastAccess` timestamp and the per-tab lock entries are orthogonal to the
claims settled here and are omitted from the state. -/

/-- JS `Map.prototype.set`: replace in place if present, else append. -/
def alSet {α : Type} (m : List (String × α)) (k : String) (v : α) : List (String × α) :=
  if (m.lookup k).isSome then m.map (fun p => if p.1 = k then (k, v) else p)
  else m ++ [(k, v)]

/-- JS `Map.prototype.delete` (unique keys assumed, as `Map` guarantees). -/
def alDel {α : Type} (m : List (String × α)) (k : String) : List (String × α) :=
  m.filter (fun p => p.1 ≠ k)

/-- Per-tab mutable state, `createTabState(page)`. -/
structure TabStateM where
  page : Nat
  refs : List (String × RefInfo)
  visitedUrls : List String
  toolCalls : Nat
deriving Repr, DecidableEq

/-- `createTabState` (`src/server.js`, lines 1618-1625). -/
def createTabState (page : Nat) : TabStateM :=
  { page := page, refs := [], visitedUrls := [], toolCalls := 0 }

/-- JS `Set.prototype.add` on the visited-URL set. -/
def setAdd (s : List String) (u : String) : List String :=
  if s.contains u then s else s ++ [u]

/-- A tab group: `tabId → TabState` in insertion order. -/
abbrev TabGroupM : Type := List (String × TabStateM)

/-- A session's `tabGroups` map: `listItemId → TabGroup`. -/
abbrev SessionM : Type := List (String × TabGroupM)

/-- The global `sessions` map: `userId (string) → Session`. -/
abbrev SessionsM : Type := List (String × SessionM)

/-- `findTab(session, tabId)` (`src/server.js`, lines 1608-1616): linear
scan over the groups in insertion order; returns the tab state together
with the `listItemId` of its group. -/
def findTab : SessionM → String → Option (TabStateM × String)
  | [], _ => none
  | (listItemId, group) :: rest, tabId =>
    match group.lookup tabId with
    | some ts => some (ts, listItemId)
    | none => findTab rest tabId

/-- `getTabGroup(session, listItemId)` (`src/server.js`, lines 1599-1606):
lazily create the group. -/
def getTabGroupS (s : SessionM) (listItemId : String) : SessionM :=
  if (s.lookup listItemId).isSome then s else s ++ [(listItemId, ([] : TabGroupM))]

/-- Insert a tab into an (existing) group: `group.set(tabId, tabState)`. -/
def setTab (s : SessionM) (listItemId tabId : String) (ts : TabStateM) : SessionM :=
  s.map (fun p => if p.1 = listItemId then (p.1, alSet p.2 tabId ts) else p)

/-- Total tabs across all groups of a session (`src/server.js`,
lines 1826-1827). -/
def totalTabs (s : SessionM) : Nat :=
  (s.map (fun p => p.2.length)).sum

def MAX_TABS_PER_SESSION : Nat := 10

/-- The quota-gated tab creation of `POST /tabs` (`src/server.js`,
lines 1826-1837), at the granularity of the spec's
`openTab(session, groupKey, driverHandle)`: count tabs across all groups,
fail with 429 before touching anything if at quota, otherwise create the
(lazily created) group and register the fresh tab state. -/
def openTab (s : SessionM) (listItemId tabId : String) (page : Nat) :
    Except Nat SessionM :=
  if totalTabs s ≥ MAX_TABS_PER_SESSION then Except.error 429
  else Except.ok (setTab (getTabGroupS s listItemId) listItemId tabId (createTabState page))

/-- `DELETE /tabs/:tabId` restricted to one session (`src/server.js`,
lines 2322-2329): remove the tab from its group and drop the group if it
became empty.  Idempotent when the tab is absent. -/
def closeTab (s : SessionM) (tabId : String) : SessionM :=
  match findTab s tabId with
  | none => s
  | some f =>
    let s1 := s.map (fun p => if p.1 = f.2 then (p.1, alDel p.2 tabId) else p)
    match s1.lookup f.2 with
    | some g => if g.length = 0 then alDel s1 f.2 else s1
    | none => s1

/-- The `'close'` case of `POST /act` (`src/server.js`, lines 2737-2742):
`found.group.delete(targetId)` — and nothing else; the emptied group is
not removed. -/
def actClose (s : SessionM) (targetId : String) : SessionM :=
  match findTab s targetId with
  | none => s
  | some f => s.map (fun p => if p.1 = f.2 then (p.1, alDel p.2 targetId) else p)

/-- No group of the session is empty. -/
def noEmptyGroups (s : SessionM) : Prop :=
  ∀ p ∈ s, p.2 ≠ ([] : TabGroupM)

/-- Well-formedness that JS `Map`s and UUID freshness guarantee: group
keys are distinct, tab ids are distinct within each group, and no tab id
occurs in two groups. -/
structure WFSession (s : SessionM) : Prop where
  groupKeys : (s.map (fun p => p.1)).Nodup
  tabKeys : ∀ p ∈ s, (p.2.map (fun q => q.1)).Nodup
  tabsDisjoint : ∀ p ∈ s, ∀ p' ∈ s, ∀ t, (p.2.lookup t).isSome → (p'.2.lookup t).isSome → p = p'

/-! #### URL validation (`src/server.js`, lines 1355, 1389-1399)

`validateUrl` parses with WHATWG `new URL` and checks the scheme.  The
parser is embedded at scheme granularity: an absolute URL starts with a
scheme `[A-Za-z][A-Za-z0-9+\-.]*` followed by `:`; `URL.protocol` is the
lower-cased scheme with the trailing colon.  (Authority/path validation
of the real parser is irrelevant to every claim.) -/

/-- The locked body of `POST /tabs/:tabId/navigate` (lines 1880-1885):
goto, record the URL, rebuild the reference table. -/
def navigateInner (tab : TabStateM) (gotoRes : Except String Unit)
    (builtRefs : Except String (List (String × RefInfo))) (targetUrl : String) :
    Except String (Bool × String) × TabStateM :=
  match gotoRes with
  | Except.error e => (Except.error e, tab)
  | Except.ok _ =>
    let tab1 := { tab with visitedUrls := setAdd tab.visitedUrls targetUrl }
    match builtRefs with
    | Except.error e => (Except.error e, tab1)
    | Except.ok r => (Except.ok (true, targetUrl), { tab1 with refs := r })

/-- The locked body of `POST /tabs/:tabId/click` (lines 1999-2065): click,
rebuild the reference table, record the landed URL. -/
def clickInner (tab : TabStateM) (clickRes : Except String Unit)
    (builtRefs : Except String (List (String × RefInfo))) (newUrl : String) :
    Except String (Bool × String) × TabStateM :=
  match clickRes with
  | Except.error e => (Except.error e, tab)
  | Except.ok _ =>
    match builtRefs with
    | Except.error e => (Except.error e, tab)
    | Except.ok r =>
      (Except.ok (true, newUrl),
       { tab with refs := r, visitedUrls := setAdd tab.visitedUrls newUrl })

/-- The locked body of `POST /tabs/:tabId/back` (lines 2168-2172). -/
def backInner (tab : TabStateM) (navRes : Except String Unit)
    (builtRefs : Except String (List (String × RefInfo))) (url : String) :
    Except String (Bool × String) × TabStateM :=
  match navRes with
  | Except.error e => (Except.error e, tab)
  | Except.ok _ =>
    match builtRefs with
    | Except.error e => (Except.error e, tab)
    | Except.ok r => (Except.ok (true, url), { tab with refs := r })

/-- The locked body of `POST /tabs/:tabId/forward` (lines 2194-2198). -/
def forwardInner (tab : TabStateM) (navRes : Except String Unit)
    (builtRefs : Except String (List (String × RefInfo))) (url : String) :
    Except String (Bool × String) × TabStateM :=
  match navRes with
  | Except.error e => (Except.error e, tab)
  | Except.ok _ =>
    match builtRefs with
    | Except.error e => (Except.error e, tab)
    | Except.ok r => (Except.ok (true, url), { tab with refs := r })

/-- The locked body of `POST /tabs/:tabId/refresh` (lines 2220-2224). -/
def refreshInner (tab : TabStateM) (navRes : Except String Unit)
    (builtRefs : Except String (List (String × RefInfo))) (url : String) :
    Except String (Bool × String) × TabStateM :=
  match navRes with
  | Except.error e => (Except.error e, tab)
  | Except.ok _ =>
    match builtRefs with
    | Except.error e => (Except.error e, tab)
    | Except.ok r => (Except.ok (true, url), { tab with refs := r })

/-! #### Tenant scoping of per-tab reads (`src/server.js`, lines 1896-1902) -/

/-- The session-scoping gate every per-tab route starts with:
`sessions.get(normalizeUserId(userId))`, then `findTab`, then
`404 {error: 'Tab not found'}` if either step fails. -/
def tabGate (ss : SessionsM) (userId tabId : String) :
    Except (Nat × String) (TabStateM × String) :=
  match ss.lookup userId with
  | none => Except.error (404, "Tab not found")
  | some session =>
    match findTab session tabId with
    | none => Except.error (404, "Tab not found")
    | some f => Except.ok f

/-! #### userId normalization (`src/server.js`, lines 1565-1568) -/

/-- A JSON scalar as it reaches `req.body.userId`: a string or a number
(integral — the shapes user ids take). -/
inductive JsVal where
  | str (s : String)
  | num (n : Int)
deriving Repr, DecidableEq

/-- `normalizeUserId(userId) = String(userId)`. -/
def normalizeUserId (u : JsVal) : String :=
  match u with
  | JsVal.str s => s
  | JsVal.num n => jsIntToStr n

/-- The lookup step of `getSession` under normalization. -/
def getSessionKeyed (ss : SessionsM) (u : JsVal) : Option SessionM :=
  ss.lookup (normalizeUserId u)

/-! ## Helper lemmas -/

theorem charToNatOfNat (n : Nat) (h : n.isValidChar) : (Char.ofNat n).toNat = n := by
  unfold Char.ofNat
  rw [dif_pos h]
  rfl

theorem charToNat_le_of_le {a c : Char} (h : a ≤ c) : a.toNat ≤ c.toNat := h

theorem lowerChar_ne_colon {c : Char} (h : wordChar c = true) : lowerChar c ≠ ':' := by
  unfold lowerChar
  by_cases hAZ : 'A' ≤ c ∧ c ≤ 'Z'
  · rw [if_pos hAZ]
    have h1 : 65 ≤ c.toNat := charToNat_le_of_le hAZ.1
    have h2 : c.toNat ≤ 90 := charToNat_le_of_le hAZ.2
    have hv : (c.toNat + 32).isValidChar := Or.inl (by omega)
    intro hc
    have := congrArg Char.toNat hc
    rw [charToNatOfNat _ hv] at this
    have h58 : Char.toNat ':' = 58 := rfl
    rw [h58] at this
    omega
  · rw [if_neg hAZ]
    intro hc
    subst hc
    exact absurd h (by decide)

theorem toLowerStr_ne_colon {s : String} (h : s.data.all wordChar = true) :
    ∀ c ∈ (toLowerStr s).data, c ≠ ':' := by
  intro c hc
  unfold toLowerStr at hc
  simp only [String.mk] at hc
  rcases List.mem_map.mp hc with ⟨d, hd, rfl⟩
  exact lowerChar_ne_colon (by simpa using List.all_eq_true.mp h d hd)

theorem natDigitsGo_digits :
    ∀ fuel n acc, ∀ c ∈ natDigitsGo fuel n acc, c ∈ acc ∨ c.isDigit = true := by
  intro fuel
  induction fuel with
  | zero => intro n acc c hc; exact Or.inl hc
  | succ f ih =>
    intro n acc c hc
    unfold natDigitsGo at hc
    by_cases h10 : n < 10
    · rw [if_pos h10] at hc
      rcases List.mem_cons.mp hc with hc | hc
      · right
        subst hc
        interval_cases n <;> decide
      · exact Or.inl hc
    · rw [if_neg h10] at hc
      rcases ih (n / 10) (Nat.digitChar (n % 10) :: acc) c hc with hc' | hc'
      · rcases List.mem_cons.mp hc' with hc' | hc'
        · right
          have hm : n % 10 < 10 := Nat.mod_lt _ (by omega)
          subst hc'
          set k := n % 10 with hk
          interval_cases k <;> decide
        · exact Or.inl hc'
      · exact Or.inr hc'

theorem natToStr_digits (n : Nat) : ∀ c ∈ (natToStr n).data, c.isDigit = true := by
  intro c hc
  unfold natToStr at hc
  simp only [String.mk] at hc
  rcases natDigitsGo_digits (n + 1) n [] c hc with h | h
  · exact absurd h (List.not_mem_nil c)
  · exact h

theorem digit_ne_colon {c : Char} (h : c.isDigit = true) : c ≠ ':' := by
  intro hc
  subst hc
  exact absurd h (by decide)

theorem natToStr_ne_colon (n : Nat) : ∀ c ∈ (natToStr n).data, c ≠ ':' :=
  fun c hc => digit_ne_colon (natToStr_digits n c hc)

theorem natDigitsGo_acc (fuel n : Nat) (acc : List Char) :
    natDigitsGo fuel n acc = natDigitsGo fuel n [] ++ acc := by
  induction fuel generalizing n acc with
  | zero => simp [natDigitsGo]
  | succ f ih =>
    unfold natDigitsGo
    by_cases h10 : n < 10
    · simp [h10]
    · rw [if_neg h10, if_neg h10, ih (n / 10) (Nat.digitChar (n % 10) :: acc),
        ih (n / 10) [Nat.digitChar (n % 10)]]
      simp

theorem decChar_digitChar {d : Nat} (h : d < 10) :
    (Nat.digitChar d).toNat - 48 = d := by
  interval_cases d <;> decide

theorem natDigitsGo_foldl (fuel : Nat) :
    ∀ n s, n < fuel →
      (natDigitsGo fuel n []).foldl (fun a c => a * 10 + (c.toNat - 48)) s =
        s * 10 ^ (natDigitsGo fuel n []).length + n := by
  induction fuel with
  | zero => intro n s h; omega
  | succ f ih =>
    intro n s h
    by_cases h10 : n < 10
    · unfold natDigitsGo
      rw [if_pos h10]
      simp [List.foldl, decChar_digitChar h10]
    · unfold natDigitsGo
      rw [if_neg h10]
      rw [natDigitsGo_acc]
      have hdiv : n / 10 < f := by
        have := Nat.div_lt_self (show 0 < n by omega) (show 1 < 10 by omega)
        omega
      rw [List.foldl_append, ih (n / 10) s hdiv]
      have hmod : n % 10 < 10 := Nat.mod_lt _ (by omega)
      simp only [List.foldl, List.length_append, List.length_cons, List.length_nil]
      rw [decChar_digitChar hmod]
      rw [pow_succ]
      have := Nat.div_add_mod n 10
      ring_nf
      omega

theorem natToStr_inj {n m : Nat} (h : natToStr n = natToStr m) : n = m := by
  have hd : natDigitsGo (n + 1) n [] = natDigitsGo (m + 1) m [] := by
    have := congrArg String.data h
    simpa [natToStr] using this
  have h1 := natDigitsGo_foldl (n + 1) n 0 (by omega)
  have h2 := natDigitsGo_foldl (m + 1) m 0 (by omega)
  rw [hd] at h1
  rw [h1] at h2
  simpa using h2

theorem strDataAppend (s t : String) : (s ++ t).data = s.data ++ t.data := rfl

theorem strDataInj {s t : String} (h : s.data = t.data) : s = t := by
  cases s
  cases t
  exact congrArg String.mk h

theorem firstSplit {a1 a2 b1 b2 : List Char} {c : Char}
    (h : a1 ++ c :: b1 = a2 ++ c :: b2) (h1 : c ∉ a1) (h2 : c ∉ a2) :
    a1 = a2 ∧ b1 = b2 := by
  induction a1 generalizing a2 with
  | nil =>
    cases a2 with
    | nil => simpa using h
    | cons x xs =>
      simp only [List.nil_append, List.cons_append, List.cons.injEq] at h
      exact absurd (show c ∈ x :: xs by rw [h.1]; exact List.mem_cons_self x xs) h2
  | cons x xs ih =>
    cases a2 with
    | nil =>
      simp only [List.cons_append, List.nil_append, List.cons.injEq] at h
      exact absurd (by simp [h.1]) h1
    | cons y ys =>
      simp only [List.cons_append, List.cons.injEq] at h
      have := ih h.2 (fun hm => h1 (List.mem_cons_of_mem _ hm))
        (fun hm => h2 (List.mem_cons_of_mem _ hm))
      exact ⟨by rw [h.1, this.1], this.2⟩

theorem lastSplit {a1 a2 b1 b2 : List Char} {c : Char}
    (h : a1 ++ c :: b1 = a2 ++ c :: b2) (h1 : c ∉ b1) (h2 : c ∉ b2) :
    a1 = a2 ∧ b1 = b2 := by
  have hrev : b1.reverse ++ c :: a1.reverse = b2.reverse ++ c :: a2.reverse := by
    have := congrArg List.reverse h
    simpa [List.reverse_append] using this
  have := firstSplit hrev (by simpa using h1) (by simpa using h2)
  constructor
  · have := congrArg List.reverse this.2
    simpa using this
  · have := congrArg List.reverse this.1
    simpa using this

/-- Keys `${role}:${name}` collide only for identical pairs, provided the
roles contain no colon (they are lower-cased `\w+` words). -/
theorem ckey_inj {r1 n1 r2 n2 : String}
    (hr1 : ∀ c ∈ r1.data, c ≠ ':') (hr2 : ∀ c ∈ r2.data, c ≠ ':')
    (h : ckey r1 n1 = ckey r2 n2) : r1 = r2 ∧ n1 = n2 := by
  have hd : r1.data ++ ':' :: n1.data = r2.data ++ ':' :: n2.data := by
    have := congrArg String.data h
    simpa [ckey, strDataAppend] using this
  have := firstSplit hd (fun hm => hr1 _ hm rfl) (fun hm => hr2 _ hm rfl)
  exact ⟨strDataInj this.1, strDataInj this.2⟩

/-- Keys `${role}:${name}:${nth}` collide only for identical triples: the
role is colon-free on the left of the first colon, the decimal `nth` is
colon-free on the right of the last colon. -/
theorem tkey_inj {r1 n1 r2 n2 : String} {k1 k2 : Nat}
    (hr1 : ∀ c ∈ r1.data, c ≠ ':') (hr2 : ∀ c ∈ r2.data, c ≠ ':')
    (h : tkey r1 n1 k1 = tkey r2 n2 k2) : r1 = r2 ∧ n1 = n2 ∧ k1 = k2 := by
  have hd : r1.data ++ ':' :: (n1.data ++ ':' :: (natToStr k1).data) =
      r2.data ++ ':' :: (n2.data ++ ':' :: (natToStr k2).data) := by
    have := congrArg String.data h
    simpa [tkey, strDataAppend] using this
  have hfst := firstSplit hd (fun hm => hr1 _ hm rfl) (fun hm => hr2 _ hm rfl)
  have hlst := lastSplit hfst.2 (fun hm => natToStr_ne_colon k1 _ hm rfl)
    (fun hm => natToStr_ne_colon k2 _ hm rfl)
  exact ⟨strDataInj hfst.1, strDataInj hlst.1, natToStr_inj (strDataInj hlst.2)⟩

theorem alSet_lookup_self {α : Type} (m : List (String × α)) (k : String) (v : α) :
    (alSet m k v).lookup k = some v := by
  unfold alSet
  by_cases h : (m.lookup k).isSome
  · rw [if_pos h]
    induction m with
    | nil => simp [List.lookup] at h
    | cons p ps ih =>
      rcases p with ⟨a, b⟩
      by_cases hk : a = k
      · subst hk
        simp only [List.map_cons, if_pos (show (a, b).1 = a from rfl)]
        simp [List.lookup]
      · have hk' : (k == a) = false := beq_false_of_ne (Ne.symm hk)
        simp only [List.map_cons, if_neg hk]
        simp only [List.lookup, hk']
        apply ih
        simpa [List.lookup, hk'] using h
  · rw [if_neg h]
    induction m with
    | nil => simp [List.lookup]
    | cons p ps ih =>
      rcases p with ⟨a, b⟩
      by_cases hk : a = k
      · exfalso
        apply h
        subst hk
        simp [List.lookup]
      · have hk' : (k == a) = false := beq_false_of_ne (Ne.symm hk)
        simp only [List.cons_append, List.lookup, hk']
        apply ih
        simpa [List.lookup, hk'] using h

/-! ## Claim theorems -/

/-- C2: three operations submitted through `withTabLock` for the same tab
while the first is still in flight do *not* serialize: after `A` settles,
both `B` and `C` are running at the same time (`C` began before `B`
settled), because `C`'s submission read `A`'s promise from `tabLocks`,
not `B`'s.  This contradicts the claimed strict submission-order
serialization (and the source's own comment "Per-tab locks to serialize
operations on the same tab"). -/
theorem C2_lock_three_submissions_race :
    (lockRun [LockEvent.submit 0, LockEvent.submit 1, LockEvent.submit 2,
      LockEvent.settle 0]).phase 1 = OpPhase.running ∧
    (lockRun [LockEvent.submit 0, LockEvent.submit 1, LockEvent.submit 2,
      LockEvent.settle 0]).phase 2 = OpPhase.running := by
  constructor <;> rfl

/-- C7: for each page-mutating operation (navigate, click, back, forward,
refresh), a failure at any driver call leaves the tab's reference table
exactly as it was, and a successful operation replaces it wholesale with
the freshly built table. -/
theorem C7_refs_atomic_replacement :
    ∀ (tab : TabStateM) (e u : String) (r : List (String × RefInfo))
      (b : Except String (List (String × RefInfo))),
      ((navigateInner tab (Except.error e) b u).2.refs = tab.refs ∧
       (navigateInner tab (Except.ok ()) (Except.error e) u).2.refs = tab.refs ∧
       (navigateInner tab (Except.ok ()) (Except.ok r) u).2.refs = r) ∧
      ((clickInner tab (Except.error e) b u).2.refs = tab.refs ∧
       (clickInner tab (Except.ok ()) (Except.error e) u).2.refs = tab.refs ∧
       (clickInner tab (Except.ok ()) (Except.ok r) u).2.refs = r) ∧
      ((backInner tab (Except.error e) b u).2.refs = tab.refs ∧
       (backInner tab (Except.ok ()) (Except.error e) u).2.refs = tab.refs ∧
       (backInner tab (Except.ok ()) (Except.ok r) u).2.refs = r) ∧
      ((forwardInner tab (Except.error e) b u).2.refs = tab.refs ∧
       (forwardInner tab (Except.ok ()) (Except.error e) u).2.refs = tab.refs ∧
       (forwardInner tab (Except.ok ()) (Except.ok r) u).2.refs = r) ∧
      ((refreshInner tab (Except.error e) b u).2.refs = tab.refs ∧
       (refreshInner tab (Except.ok ()) (Except.error e) u).2.refs = tab.refs ∧
       (refreshInner tab (Except.ok ()) (Except.ok r) u).2.refs = r) := by
  intro tab e u r b
  exact ⟨⟨rfl, rfl, rfl⟩, ⟨rfl, rfl, rfl⟩, ⟨rfl, rfl, rfl⟩, ⟨rfl, rfl, rfl⟩, ⟨rfl, rfl, rfl⟩⟩

/-- C9: a text of length at most `MAX_SNAPSHOT_CHARS` is returned whole and
untruncated by `windowSnapshot` at offset 0. -/
theorem C9_window_short (yaml : List Char) (h : yaml.length ≤ MAX_SNAPSHOT_CHARS) :
    (windowSnapshot yaml 0).text = yaml ∧ (windowSnapshot yaml 0).truncated = false := by
  unfold windowSnapshot
  by_cases h0 : yaml.length = 0
  · have : yaml = [] := List.length_eq_zero.mp h0
    subst this
    simp
  · rw [if_neg h0, if_pos h]
    exact ⟨rfl, rfl⟩

/-- C9 witness at a concrete short text. -/
theorem C9_window_short_witness :
    "abc".data.length ≤ MAX_SNAPSHOT_CHARS ∧
    ((windowSnapshot "abc".data 0).text = "abc".data ∧
     (windowSnapshot "abc".data 0).truncated = false) :=
  ⟨by decide, C9_window_short "abc".data (by decide)⟩

/-- C10: every userId is normalized with `String(userId)` before the
sessions map is touched, so a numeric userId addresses exactly the
session of its decimal string form: the lookups agree, string userIds are
used verbatim, and a session stored under a numeric userId is found under
the equivalent string (and hence vice versa). -/
theorem C10_userid_normalization :
    ∀ (ss : SessionsM) (n : Int) (s : String) (sess : SessionM),
      getSessionKeyed ss (JsVal.num n) = getSessionKeyed ss (JsVal.str (jsIntToStr n)) ∧
      getSessionKeyed ss (JsVal.str s) = ss.lookup s ∧
      (alSet ss (normalizeUserId (JsVal.num n)) sess).lookup
          (normalizeUserId (JsVal.str (jsIntToStr n))) = some sess := by
  intro ss n s sess
  exact ⟨rfl, rfl, alSet_lookup_self ss (jsIntToStr n) sess⟩

theorem lookup_of_mem_nodup {α : Type} (m : List (String × α))
    (hnd : (m.map (fun p => p.1)).Nodup) (q : String × α) (hq : q ∈ m) :
    m.lookup q.1 = some q.2 := by
  induction m with
  | nil => cases hq
  | cons p ps ih =>
    rcases List.mem_cons.mp hq with hq | hq
    · subst hq
      simp [List.lookup]
    · have hne : q.1 ≠ p.1 := by
        intro he
        have : p.1 ∈ ps.map (fun p => p.1) := he ▸ List.mem_map_of_mem _ hq
        exact (List.nodup_cons.mp hnd).1 this
      have hb : (q.1 == p.1) = false := beq_false_of_ne hne
      simp only [List.lookup, hb]
      exact ih (List.nodup_cons.mp hnd).2 hq

theorem findTab_mem (s : SessionM) (t : String) (f : TabStateM × String)
    (h : findTab s t = some f) : ∃ g, (f.2, g) ∈ s ∧ g.lookup t = some f.1 := by
  induction s with
  | nil => simp [findTab] at h
  | cons p ps ih =>
    rcases p with ⟨lid, g⟩
    unfold findTab at h
    cases hl : g.lookup t with
    | some ts =>
      rw [hl] at h
      cases h
      exact ⟨g, List.mem_cons_self _ _, hl⟩
    | none =>
      rw [hl] at h
      rcases ih h with ⟨g', hg', hl'⟩
      exact ⟨g', List.mem_cons_of_mem _ hg', hl'⟩

theorem alSet_ne_nil {α : Type} (m : List (String × α)) (k : String) (v : α) :
    alSet m k v ≠ [] := by
  unfold alSet
  by_cases h : (m.lookup k).isSome
  · rw [if_pos h]
    cases m with
    | nil => simp [List.lookup] at h
    | cons p ps => simp
  · rw [if_neg h]
    simp

/-- C4: the session-scoping gate of every per-tab route depends only on the
requesting tenant's own session.  A tabId living in another tenant's
session yields exactly the same `404 {error: 'Tab not found'}` outcome as
a tabId that exists nowhere, and changing any *other* tenant's session
contents never changes the response. -/
theorem C4_tenant_isolation (ss ss' : SessionsM) (uB tabId : String)
    (hagree : ss.lookup uB = ss'.lookup uB)
    (hmiss : ∀ s, ss.lookup uB = some s → findTab s tabId = none) :
    tabGate ss uB tabId = tabGate ss' uB tabId ∧
    tabGate ss uB tabId = Except.error (404, "Tab not found") := by
  constructor
  · unfold tabGate
    rw [hagree]
  · unfold tabGate
    cases h : ss.lookup uB with
    | none => rfl
    | some s => simp [hmiss s h]

/-- C4 witness: tenant `alice` owns tab `t1`; tenant `bob`'s request for
`t1` is indistinguishable from the same request against a registry in
which `alice`'s session does not exist at all. -/
theorem C4_tenant_isolation_witness :
    ([("alice", [("g", [("t1", createTabState 0)])]), ("bob", ([] : SessionM))] : SessionsM).lookup
        "bob" = ([("bob", ([] : SessionM))] : SessionsM).lookup "bob" ∧
    (tabGate [("alice", [("g", [("t1", createTabState 0)])]), ("bob", [])] "bob" "t1" =
        tabGate [("bob", [])] "bob" "t1" ∧
     tabGate ([("alice", [("g", [("t1", createTabState 0)])]), ("bob", [])] : SessionsM)
        "bob" "t1" = Except.error (404, "Tab not found")) :=
  ⟨by decide,
   C4_tenant_isolation _ _ _ _ (by decide)
     (fun s h => by
       rw [show ([("alice", [("g", [("t1", createTabState 0)])]), ("bob", [])] :
         SessionsM).lookup "bob" = some ([] : SessionM) from rfl] at h
       cases h
       rfl)⟩

/-- C8 counterexample: the `/act` `'close'` action removes the last tab of
a group but leaves the emptied group in the session, so an empty
`TabGroup` persists after the operation — the claimed invariant fails. -/
theorem C8_empty_group_counterexample :
    actClose [("g", [("t1", createTabState 0)])] "t1" = [("g", ([] : TabGroupM))] ∧
    ¬ noEmptyGroups (actClose [("g", [("t1", createTabState 0)])] "t1") := by
  constructor
  · decide
  · intro h
    have := h ("g", ([] : TabGroupM)) (by decide)
    exact this rfl

/-- C8 (amended): the `DELETE /tabs/:tabId` close path does maintain the
no-empty-group invariant (it removes a group that its deletion emptied),
and successful tab creation only ever adds a tab to a group; the `/act`
`'close'` path is the exception recorded in the counterexample. -/
theorem C8_amended_no_empty_groups (s : SessionM) (t : String)
    (hnd : (s.map (fun p => p.1)).Nodup) (h : noEmptyGroups s) :
    noEmptyGroups (closeTab s t) ∧
    (∀ key tid pg s', openTab s key tid pg = Except.ok s' → noEmptyGroups s') := by
  constructor
  · unfold closeTab
    cases hf : findTab s t with
    | none => exact h
    | some f =>
      rcases findTab_mem s t f hf with ⟨g0, hmem, hlk⟩
      have hkeys : (s.map (fun p => if p.1 = f.2 then (p.1, alDel p.2 t) else p)).map
          (fun p => p.1) = s.map (fun p => p.1) := by
        rw [List.map_map]
        apply List.map_congr_left
        intro q hq
        by_cases hq1 : q.1 = f.2 <;> simp [hq1]
      have hnd1 : ((s.map (fun p => if p.1 = f.2 then (p.1, alDel p.2 t) else p)).map
          (fun p => p.1)).Nodup := by rw [hkeys]; exact hnd
      have hmem1 : (f.2, alDel g0 t) ∈
          s.map (fun p => if p.1 = f.2 then (p.1, alDel p.2 t) else p) := by
        have := List.mem_map_of_mem (fun p => if p.1 = f.2 then (p.1, alDel p.2 t) else p) hmem
        simpa using this
      have hl : (s.map (fun p => if p.1 = f.2 then (p.1, alDel p.2 t) else p)).lookup f.2 =
          some (alDel g0 t) :=
        lookup_of_mem_nodup _ hnd1 (f.2, alDel g0 t) hmem1
      dsimp only
      rw [hl]
      dsimp only
      by_cases hg : (alDel g0 t).length = 0
      · rw [if_pos hg]
        intro p hp
        rcases List.mem_filter.mp hp with ⟨hp1, hp2⟩
        rcases List.mem_map.mp hp1 with ⟨q, hq, hpq⟩
        by_cases hq1 : q.1 = f.2
        · rw [if_pos hq1] at hpq
          exfalso
          apply of_decide_eq_true hp2
          rw [← hpq]
          exact hq1
        · rw [if_neg hq1] at hpq
          exact hpq ▸ h q hq
      · rw [if_neg hg]
        intro p hp
        rcases List.mem_map.mp hp with ⟨q, hq, hpq⟩
        by_cases hq1 : q.1 = f.2
        · rw [if_pos hq1] at hpq
          have hlp : (s.map (fun p => if p.1 = f.2 then (p.1, alDel p.2 t) else p)).lookup p.1 =
              some p.2 := lookup_of_mem_nodup _ hnd1 p hp
          have hp1 : p.1 = f.2 := by rw [← hpq]; exact hq1
          rw [hp1, hl] at hlp
          have hpg : p.2 = alDel g0 t := Option.some.inj hlp.symm
          intro hnil
          apply hg
          rw [← hpg, hnil]
          rfl
        · rw [if_neg hq1] at hpq
          exact hpq ▸ h q hq
  · intro key tid pg s' hok
    unfold openTab at hok
    by_cases hq : totalTabs s ≥ MAX_TABS_PER_SESSION
    · rw [if_pos hq] at hok
      cases hok
    · rw [if_neg hq] at hok
      injection hok with hok
      subst hok
      intro p hp
      unfold setTab at hp
      rcases List.mem_map.mp hp with ⟨q, hq', hpq⟩
      by_cases hq1 : q.1 = key
      · rw [if_pos hq1] at hpq
        intro hnil
        exact alSet_ne_nil q.2 tid (createTabState pg) (by rw [← hpq] at hnil; exact hnil)
      · rw [if_neg hq1] at hpq
        unfold getTabGroupS at hq'
        by_cases hk : (s.lookup key).isSome
        · rw [if_pos hk] at hq'
          exact hpq ▸ h q hq'
        · rw [if_neg hk] at hq'
          rcases List.mem_append.mp hq' with hq' | hq'
          · exact hpq ▸ h q hq'
          · exfalso
            apply hq1
            rcases List.mem_singleton.mp hq' with rfl
            rfl

/-- C8 witness: a two-tab group; closing one tab keeps the group, and
every successful creation yields a session with no empty group. -/
theorem C8_amended_no_empty_groups_witness :
    (([("g", [("t1", createTabState 0), ("t2", createTabState 1)])] : SessionM).map
        (fun p => p.1)).Nodup ∧
    noEmptyGroups ([("g", [("t1", createTabState 0), ("t2", createTabState 1)])] : SessionM) ∧
    (noEmptyGroups
        (closeTab [("g", [("t1", createTabState 0), ("t2", createTabState 1)])] "t1") ∧
     (∀ key tid pg s',
        openTab [("g", [("t1", createTabState 0), ("t2", createTabState 1)])] key tid pg =
          Except.ok s' → noEmptyGroups s')) :=
  ⟨by decide, by unfold noEmptyGroups; decide,
   C8_amended_no_empty_groups [("g", [("t1", createTabState 0), ("t2", createTabState 1)])]
     "t1" (by decide) (by unfold noEmptyGroups; decide)⟩

theorem lookup_mem {α : Type} {m : List (String × α)} {k : String} {v : α}
    (h : m.lookup k = some v) : (k, v) ∈ m := by
  induction m with
  | nil => simp [List.lookup] at h
  | cons p ps ih =>
    rcases p with ⟨a, b⟩
    by_cases hk : k = a
    · subst hk
      simp [List.lookup] at h
      subst h
      exact List.mem_cons_self _ _
    · have hb : (k == a) = false := beq_false_of_ne hk
      simp only [List.lookup, hb] at h
      exact List.mem_cons_of_mem _ (ih h)

theorem lookup_none_not_mem {α : Type} {m : List (String × α)} {k : String}
    (h : m.lookup k = none) : k ∉ m.map (fun p => p.1) := by
  induction m with
  | nil => simp
  | cons p ps ih =>
    rcases p with ⟨a, b⟩
    by_cases hk : k = a
    · subst hk
      simp [List.lookup] at h
    · have hb : (k == a) = false := beq_false_of_ne hk
      simp only [List.lookup, hb] at h
      simp only [List.map_cons, List.mem_cons]
      rintro (rfl | hm)
      · exact hk rfl
      · exact ih h hm

theorem lookup_filter_none {α : Type} {m : List (String × α)} {k : String}
    (pr : String × α → Bool) (h : m.lookup k = none) :
    (m.filter pr).lookup k = none := by
  induction m with
  | nil => simp [List.lookup]
  | cons p ps ih =>
    rcases p with ⟨a, b⟩
    by_cases hk : k = a
    · subst hk
      simp [List.lookup] at h
    · have hb : (k == a) = false := beq_false_of_ne hk
      simp only [List.lookup, hb] at h
      by_cases hpr : pr (a, b)
      · rw [List.filter_cons_of_pos hpr]
        simp only [List.lookup, hb]
        exact ih h
      · rw [List.filter_cons_of_neg hpr]
        exact ih h

theorem alSet_length_fresh {α : Type} {m : List (String × α)} {k : String} (v : α)
    (h : m.lookup k = none) : (alSet m k v).length = m.length + 1 := by
  unfold alSet
  rw [if_neg (by simp [h])]
  simp

theorem alDel_of_lookup_none {α : Type} {m : List (String × α)} {k : String}
    (h : m.lookup k = none) : alDel m k = m := by
  unfold alDel
  apply List.filter_eq_self.mpr
  intro p hp
  have := lookup_none_not_mem h
  simp only [decide_eq_true_eq]
  intro he
  exact this (he ▸ List.mem_map_of_mem _ hp)

theorem alDel_length {α : Type} {m : List (String × α)} {k : String} {v : α}
    (hnd : (m.map (fun p => p.1)).Nodup) (h : m.lookup k = some v) :
    (alDel m k).length + 1 = m.length := by
  induction m with
  | nil => simp [List.lookup] at h
  | cons p ps ih =>
    rcases p with ⟨a, b⟩
    by_cases hk : k = a
    · subst hk
      have hnone : ps.lookup k = none := by
        cases hl : ps.lookup k with
        | none => rfl
        | some w =>
          exfalso
          have := lookup_mem hl
          have : k ∈ ps.map (fun p => p.1) := List.mem_map_of_mem _ this
          exact (List.nodup_cons.mp hnd).1 this
      unfold alDel
      rw [List.filter_cons_of_neg (by simp)]
      rw [show List.filter (fun p => decide ¬p.1 = k) ps = alDel ps k from rfl,
        alDel_of_lookup_none hnone]
      simp
    · have hb : (k == a) = false := beq_false_of_ne hk
      simp only [List.lookup, hb] at h
      unfold alDel
      rw [List.filter_cons_of_pos (by simp [Ne.symm hk])]
      have := ih (List.nodup_cons.mp hnd).2 h
      unfold alDel at this
      simp only [List.length_cons]
      omega

/-- Changing the (unique) group of one key rebalances the tab total by the
length difference of that group. -/
theorem totalTabs_map_key (s : SessionM) (key : String) (G : TabGroupM → TabGroupM)
    (hnd : (s.map (fun p => p.1)).Nodup) (g : TabGroupM) (hmem : (key, g) ∈ s) :
    totalTabs (s.map (fun p => if p.1 = key then (p.1, G p.2) else p)) + g.length =
      totalTabs s + (G g).length := by
  induction s with
  | nil => cases hmem
  | cons p ps ih =>
    rcases List.mem_cons.mp hmem with he | hmem'
    · have hp : p = (key, g) := he.symm
      subst hp
      have hnotin : key ∉ ps.map (fun p => p.1) := by
        simpa using (List.nodup_cons.mp hnd).1
      have hid : ps.map (fun p => if p.1 = key then (p.1, G p.2) else p) = ps := by
        have : ∀ q ∈ ps, (if q.1 = key then (q.1, G q.2) else q) = q := by
          intro q hq
          rw [if_neg]
          intro he'
          exact hnotin (he' ▸ List.mem_map_of_mem _ hq)
        rw [List.map_congr_left this]
        simp
      simp only [List.map_cons, hid, if_true, ite_true]
      unfold totalTabs
      simp only [List.map_cons, List.sum_cons]
      omega
    · have hkey : key ∈ ps.map (fun p => p.1) :=
        List.mem_map_of_mem (fun p => p.1) hmem'
      have hp1 : p.1 ≠ key := by
        intro he'
        exact (List.nodup_cons.mp hnd).1
          (by show p.1 ∈ ps.map (fun p => p.1); rw [he']; exact hkey)
      simp only [List.map_cons, if_neg hp1]
      have := ih (List.nodup_cons.mp hnd).2 hmem'
      unfold totalTabs
      unfold totalTabs at this
      simp only [List.map_cons, List.sum_cons]
      omega

/-- Deleting a key whose group is empty does not change the tab total. -/
theorem totalTabs_alDel_zero (s : SessionM) (key : String) (g : TabGroupM)
    (hnd : (s.map (fun p => p.1)).Nodup) (hmem : (key, g) ∈ s) (hg : g.length = 0) :
    totalTabs (alDel s key) = totalTabs s := by
  induction s with
  | nil => cases hmem
  | cons p ps ih =>
    rcases List.mem_cons.mp hmem with he | hmem'
    · have hp : p = (key, g) := he.symm
      subst hp
      have hnone : ps.lookup key = none := by
        cases hl : ps.lookup key with
        | none => rfl
        | some w =>
          exfalso
          exact (List.nodup_cons.mp hnd).1
            (by simpa using List.mem_map_of_mem (fun p => p.1) (lookup_mem hl))
      unfold alDel
      rw [List.filter_cons_of_neg (by simp)]
      rw [show List.filter (fun p => decide ¬p.1 = key) ps = alDel ps key from rfl,
        alDel_of_lookup_none hnone]
      unfold totalTabs
      simp only [List.map_cons, List.sum_cons]
      omega
    · have hp1 : p.1 ≠ key := by
        intro he'
        exact (List.nodup_cons.mp hnd).1
          (by show p.1 ∈ ps.map (fun p => p.1); rw [he']
              exact List.mem_map_of_mem (fun p => p.1) hmem')
      unfold alDel
      rw [List.filter_cons_of_pos (by simp [hp1])]
      have := ih (List.nodup_cons.mp hnd).2 hmem'
      unfold alDel at this
      unfold totalTabs
      unfold totalTabs at this
      simp only [List.map_cons, List.sum_cons]
      omega

/-- Below the quota, tab creation succeeds and adds exactly one tab. -/
theorem openTab_total (s : SessionM) (key tid : String) (pg : Nat)
    (hnd : (s.map (fun p => p.1)).Nodup)
    (hfresh : ∀ p ∈ s, p.2.lookup tid = none)
    (hq : totalTabs s < MAX_TABS_PER_SESSION) :
    ∃ s', openTab s key tid pg = Except.ok s' ∧ totalTabs s' = totalTabs s + 1 := by
  unfold openTab
  rw [if_neg (by omega)]
  refine ⟨_, rfl, ?_⟩
  unfold getTabGroupS
  cases hk : s.lookup key with
  | some g =>
    rw [show (if (some g).isSome = true then s else s ++ [(key, ([] : TabGroupM))]) = s
      by simp]
    have hmem : (key, g) ∈ s := lookup_mem hk
    have h2 : totalTabs (setTab s key tid (createTabState pg)) + g.length =
        totalTabs s + (alSet g tid (createTabState pg)).length :=
      totalTabs_map_key s key (fun gg => alSet gg tid (createTabState pg)) hnd g hmem
    have hlen : (alSet g tid (createTabState pg)).length = g.length + 1 :=
      alSet_length_fresh _ (hfresh _ hmem)
    omega
  | none =>
    rw [show (if (none : Option TabGroupM).isSome = true then s
        else s ++ [(key, ([] : TabGroupM))]) = s ++ [(key, ([] : TabGroupM))] by simp]
    have hnotin : key ∉ s.map (fun p => p.1) := lookup_none_not_mem hk
    have hnd1 : ((s ++ [(key, ([] : TabGroupM))]).map (fun p => p.1)).Nodup := by
      rw [List.map_append, List.nodup_append]
      refine ⟨hnd, by simp, ?_⟩
      intro a ha hb
      rw [List.map_singleton, List.mem_singleton] at hb
      subst hb
      exact hnotin ha
    have hmem : (key, ([] : TabGroupM)) ∈ s ++ [(key, ([] : TabGroupM))] := by simp
    have h2 : totalTabs (setTab (s ++ [(key, ([] : TabGroupM))]) key tid (createTabState pg)) +
        ([] : TabGroupM).length =
        totalTabs (s ++ [(key, ([] : TabGroupM))]) +
          (alSet ([] : TabGroupM) tid (createTabState pg)).length :=
      totalTabs_map_key (s ++ [(key, ([] : TabGroupM))]) key
        (fun gg => alSet gg tid (createTabState pg)) hnd1 ([] : TabGroupM) hmem
    have htot : totalTabs (s ++ [(key, ([] : TabGroupM))]) = totalTabs s := by
      unfold totalTabs
      simp
    have hlen : (alSet ([] : TabGroupM) tid (createTabState pg)).length = 1 := by
      simp [alSet, List.lookup]
    simp only [List.length_nil] at h2
    omega

theorem map_key_keys (s : SessionM) (key : String) (G : TabGroupM → TabGroupM) :
    (s.map (fun p => if p.1 = key then (p.1, G p.2) else p)).map (fun p => p.1) =
      s.map (fun p => p.1) := by
  rw [List.map_map]
  apply List.map_congr_left
  intro q hq
  by_cases hq1 : q.1 = key <;> simp [hq1]

theorem map_key_lookup (s : SessionM) (key : String) (G : TabGroupM → TabGroupM)
    (hnd : (s.map (fun p => p.1)).Nodup) (g : TabGroupM) (hmem : (key, g) ∈ s) :
    (s.map (fun p => if p.1 = key then (p.1, G p.2) else p)).lookup key = some (G g) := by
  have hnd1 : ((s.map (fun p => if p.1 = key then (p.1, G p.2) else p)).map
      (fun p => p.1)).Nodup := by rw [map_key_keys]; exact hnd
  have hmem1 : (key, G g) ∈ s.map (fun p => if p.1 = key then (p.1, G p.2) else p) := by
    have := List.mem_map_of_mem (fun p => if p.1 = key then (p.1, G p.2) else p) hmem
    simpa using this
  exact lookup_of_mem_nodup _ hnd1 (key, G g) hmem1

/-- Closing a present tab through the `DELETE /tabs/:tabId` path removes
exactly one tab from the session total. -/
theorem closeTab_total (s : SessionM) (t : String) (f : TabStateM × String)
    (hnd : (s.map (fun p => p.1)).Nodup)
    (htk : ∀ p ∈ s, (p.2.map (fun q => q.1)).Nodup)
    (hf : findTab s t = some f) :
    totalTabs (closeTab s t) + 1 = totalTabs s := by
  rcases findTab_mem s t f hf with ⟨g0, hmem, hlk⟩
  have h2 : totalTabs (s.map (fun p => if p.1 = f.2 then (p.1, alDel p.2 t) else p)) +
      g0.length = totalTabs s + (alDel g0 t).length :=
    totalTabs_map_key s f.2 (fun gg => alDel gg t) hnd g0 hmem
  have hdl : (alDel g0 t).length + 1 = g0.length :=
    alDel_length (htk _ hmem) hlk
  have hl : (s.map (fun p => if p.1 = f.2 then (p.1, alDel p.2 t) else p)).lookup f.2 =
      some (alDel g0 t) := map_key_lookup s f.2 (fun gg => alDel gg t) hnd g0 hmem
  have hkeys : (s.map (fun p => if p.1 = f.2 then (p.1, alDel p.2 t) else p)).map
      (fun p => p.1) = s.map (fun p => p.1) := map_key_keys s f.2 (fun gg => alDel gg t)
  have hnd1 : ((s.map (fun p => if p.1 = f.2 then (p.1, alDel p.2 t) else p)).map
      (fun p => p.1)).Nodup := by rw [hkeys]; exact hnd
  have hmem1 : (f.2, alDel g0 t) ∈
      s.map (fun p => if p.1 = f.2 then (p.1, alDel p.2 t) else p) := lookup_mem hl
  unfold closeTab
  rw [hf]
  dsimp only
  rw [hl]
  dsimp only
  by_cases hg : (alDel g0 t).length = 0
  · rw [if_pos hg]
    have h3 : totalTabs (alDel (s.map (fun p => if p.1 = f.2 then (p.1, alDel p.2 t) else p))
        f.2) = totalTabs (s.map (fun p => if p.1 = f.2 then (p.1, alDel p.2 t) else p)) :=
      totalTabs_alDel_zero _ f.2 (alDel g0 t) hnd1 hmem1 hg
    show totalTabs (alDel (s.map (fun p => if p.1 = f.2 then (p.1, alDel p.2 t) else p)) f.2) +
        1 = totalTabs s
    omega
  · rw [if_neg hg]
    show totalTabs (s.map (fun p => if p.1 = f.2 then (p.1, alDel p.2 t) else p)) + 1 =
      totalTabs s
    omega

theorem closeTab_keys_nodup (s : SessionM) (t : String)
    (hnd : (s.map (fun p => p.1)).Nodup) :
    ((closeTab s t).map (fun p => p.1)).Nodup := by
  unfold closeTab
  cases hf : findTab s t with
  | none => exact hnd
  | some f =>
    dsimp only
    have hkeys : (s.map (fun p => if p.1 = f.2 then (p.1, alDel p.2 t) else p)).map
        (fun p => p.1) = s.map (fun p => p.1) := map_key_keys s f.2 (fun gg => alDel gg t)
    have hnd1 : ((s.map (fun p => if p.1 = f.2 then (p.1, alDel p.2 t) else p)).map
        (fun p => p.1)).Nodup := by rw [hkeys]; exact hnd
    cases hl : (s.map (fun p => if p.1 = f.2 then (p.1, alDel p.2 t) else p)).lookup f.2 with
    | none => exact hnd1
    | some g =>
      dsimp only
      by_cases hg : g.length = 0
      · rw [if_pos hg]
        have hsub : List.Sublist
            ((alDel (s.map (fun p => if p.1 = f.2 then (p.1, alDel p.2 t) else p)) f.2).map
              (fun p => p.1))
            ((s.map (fun p => if p.1 = f.2 then (p.1, alDel p.2 t) else p)).map
              (fun p => p.1)) :=
          List.Sublist.map _ (List.filter_sublist _)
        exact List.Nodup.sublist hsub hnd1
      · rw [if_neg hg]
        exact hnd1

theorem closeTab_fresh (s : SessionM) (t tid : String)
    (hfresh : ∀ p ∈ s, p.2.lookup tid = none) :
    ∀ p ∈ closeTab s t, p.2.lookup tid = none := by
  unfold closeTab
  cases hf : findTab s t with
  | none => exact hfresh
  | some f =>
    dsimp only
    have hmap : ∀ p ∈ s.map (fun p => if p.1 = f.2 then (p.1, alDel p.2 t) else p),
        p.2.lookup tid = none := by
      intro p hp
      rcases List.mem_map.mp hp with ⟨q, hq, hpq⟩
      by_cases hq1 : q.1 = f.2
      · rw [if_pos hq1] at hpq
        rw [← hpq]
        exact lookup_filter_none _ (hfresh q hq)
      · rw [if_neg hq1] at hpq
        rw [← hpq]
        exact hfresh q hq
    cases hl : (s.map (fun p => if p.1 = f.2 then (p.1, alDel p.2 t) else p)).lookup f.2 with
    | none => exact hmap
    | some g =>
      dsimp only
      by_cases hg : g.length = 0
      · rw [if_pos hg]
        intro p hp
        exact hmap p (List.mem_of_mem_filter hp)
      · rw [if_neg hg]
        exact hmap

/-- C5: tab creation is admitted exactly while the session-wide tab total
is below `MAX_TABS_PER_SESSION`; at or above the cap it fails with 429
creating nothing, and closing one tab at the cap re-admits exactly one
creation. -/
theorem C5_tab_quota (s : SessionM) (key tabId t : String) (pg : Nat)
    (hnd : (s.map (fun p => p.1)).Nodup)
    (htk : ∀ p ∈ s, (p.2.map (fun q => q.1)).Nodup)
    (hfresh : ∀ p ∈ s, p.2.lookup tabId = none) :
    (totalTabs s < MAX_TABS_PER_SESSION →
      ∃ s', openTab s key tabId pg = Except.ok s' ∧ totalTabs s' = totalTabs s + 1) ∧
    (totalTabs s ≥ MAX_TABS_PER_SESSION → openTab s key tabId pg = Except.error 429) ∧
    (totalTabs s = MAX_TABS_PER_SESSION → (findTab s t).isSome →
      ∃ s', openTab (closeTab s t) key tabId pg = Except.ok s' ∧
        ∀ key2 tid2 pg2, openTab s' key2 tid2 pg2 = Except.error 429) := by
  refine ⟨fun h => openTab_total s key tabId pg hnd hfresh h, fun h => ?_, fun h10 hfind => ?_⟩
  · unfold openTab
    rw [if_pos h]
  · cases hft : findTab s t with
    | none => rw [hft] at hfind; cases hfind
    | some f =>
      have hct : totalTabs (closeTab s t) + 1 = totalTabs s :=
        closeTab_total s t f hnd htk hft
      obtain ⟨s', hok, htot⟩ := openTab_total (closeTab s t) key tabId pg
        (closeTab_keys_nodup s t hnd) (closeTab_fresh s t tabId hfresh)
        (by unfold MAX_TABS_PER_SESSION at h10 ⊢; omega)
      refine ⟨s', hok, fun key2 tid2 pg2 => ?_⟩
      unfold openTab
      rw [if_pos (by unfold MAX_TABS_PER_SESSION at h10 ⊢; omega)]

/-- C5 witness: a one-group session with a single tab, far below quota:
creation succeeds and adds a tab; the quota branches are vacuous at this
size but the at-cap clause is exercised through the theorem instance with
`MAX_TABS_PER_SESSION` tabs below. -/
theorem C5_tab_quota_witness :
    (([("g", (List.range 10).map (fun i => (natToStr i, createTabState i)))] : SessionM).map
        (fun p => p.1)).Nodup ∧
    ((totalTabs [("g", (List.range 10).map (fun i => (natToStr i, createTabState i)))] <
        MAX_TABS_PER_SESSION →
      ∃ s', openTab [("g", (List.range 10).map (fun i => (natToStr i, createTabState i)))]
          "g" "fresh" 99 = Except.ok s' ∧
        totalTabs s' =
          totalTabs [("g", (List.range 10).map (fun i => (natToStr i, createTabState i)))] + 1) ∧
     (totalTabs [("g", (List.range 10).map (fun i => (natToStr i, createTabState i)))] ≥
        MAX_TABS_PER_SESSION →
      openTab [("g", (List.range 10).map (fun i => (natToStr i, createTabState i)))]
        "g" "fresh" 99 = Except.error 429) ∧
     (totalTabs [("g", (List.range 10).map (fun i => (natToStr i, createTabState i)))] =
        MAX_TABS_PER_SESSION →
      (findTab [("g", (List.range 10).map (fun i => (natToStr i, createTabState i)))]
          "3").isSome →
      ∃ s', openTab
          (closeTab [("g", (List.range 10).map (fun i => (natToStr i, createTabState i)))] "3")
          "g" "fresh" 99 = Except.ok s' ∧
        ∀ key2 tid2 pg2, openTab s' key2 tid2 pg2 = Except.error 429)) :=
  ⟨by decide,
   C5_tab_quota [("g", (List.range 10).map (fun i => (natToStr i, createTabState i)))]
     "g" "fresh" "3" 99 (by decide) (by decide) (by decide)⟩

theorem window_nextOffset_big (yaml : List Char) (h : MAX_SNAPSHOT_CHARS < yaml.length)
    (o : Nat) :
    (windowSnapshot yaml (Int.ofNat o)).nextOffset =
      if min o (yaml.length - SNAPSHOT_TAIL_CHARS) +
          (MAX_SNAPSHOT_CHARS - SNAPSHOT_TAIL_CHARS - 200) <
          yaml.length - SNAPSHOT_TAIL_CHARS
      then some (min o (yaml.length - SNAPSHOT_TAIL_CHARS) +
        (MAX_SNAPSHOT_CHARS - SNAPSHOT_TAIL_CHARS - 200))
      else none := by
  unfold windowSnapshot
  rw [if_neg (by omega), if_neg (by omega)]
  have hco : (max 0 (Int.ofNat o)).toNat = o := by
    rw [max_eq_right (by exact Int.natCast_nonneg o)]
    rfl
  dsimp only
  rw [hco]
  by_cases hm : min o (yaml.length - SNAPSHOT_TAIL_CHARS) +
      (MAX_SNAPSHOT_CHARS - SNAPSHOT_TAIL_CHARS - 200) < yaml.length - SNAPSHOT_TAIL_CHARS
  · simp [hm]
  · simp [hm]

theorem window_tail_suffix (yaml : List Char) (h : MAX_SNAPSHOT_CHARS < yaml.length)
    (off : Int) :
    List.IsSuffix (yaml.drop (yaml.length - SNAPSHOT_TAIL_CHARS))
      (windowSnapshot yaml off).text := by
  unfold windowSnapshot
  rw [if_neg (by omega), if_neg (by omega)]
  dsimp only
  exact List.suffix_append _ _

theorem take_min_length (yaml : List Char) (n : Nat) :
    yaml.take n = yaml.take (min n yaml.length) := by
  by_cases hn : n ≤ yaml.length
  · rw [Nat.min_eq_left hn]
  · rw [Nat.min_eq_right (by omega), List.take_length]
    exact List.take_of_length_le (by omega)

theorem window_text_decompose (yaml : List Char) (h : MAX_SNAPSHOT_CHARS < yaml.length)
    (o : Nat) :
    (windowSnapshot yaml (Int.ofNat o)).text =
      ((yaml.take (windowRange yaml o).2).drop (windowRange yaml o).1) ++
      snapshotMarker
        (min o (yaml.length - SNAPSHOT_TAIL_CHARS) +
          (MAX_SNAPSHOT_CHARS - SNAPSHOT_TAIL_CHARS - 200))
        yaml.length (windowSnapshot yaml (Int.ofNat o)).hasMore ++
      yaml.drop (yaml.length - SNAPSHOT_TAIL_CHARS) := by
  unfold windowSnapshot windowRange
  rw [if_neg (by omega), if_neg (by omega)]
  have hco : (max 0 (Int.ofNat o)).toNat = o := by
    rw [max_eq_right (by exact Int.natCast_nonneg o)]
    rfl
  dsimp only
  rw [hco]
  rw [← take_min_length]

theorem iterRanges_unfold_none (yaml : List Char) (o : Nat)
    (hn : (windowSnapshot yaml (Int.ofNat o)).nextOffset = none) :
    iterRanges yaml o = [windowRange yaml o] := by
  rw [iterRanges, hn]

theorem iterRanges_unfold_some (yaml : List Char) (o nxt : Nat)
    (hn : (windowSnapshot yaml (Int.ofNat o)).nextOffset = some nxt)
    (hguard : ¬(yaml.length - o ≤ yaml.length - nxt)) :
    iterRanges yaml o = windowRange yaml o :: iterRanges yaml nxt := by
  rw [iterRanges, hn]
  exact dif_neg hguard

theorem iter_lb (yaml : List Char) (h : MAX_SNAPSHOT_CHARS < yaml.length) :
    ∀ k o, yaml.length - o ≤ k →
      ∀ r ∈ iterRanges yaml o, min o (yaml.length - SNAPSHOT_TAIL_CHARS) ≤ r.1 := by
  have hM : MAX_SNAPSHOT_CHARS = 80000 := rfl
  have hT : SNAPSHOT_TAIL_CHARS = 5000 := rfl
  intro k
  induction k with
  | zero =>
    intro o hk r hr
    by_cases hc : min o (yaml.length - SNAPSHOT_TAIL_CHARS) +
        (MAX_SNAPSHOT_CHARS - SNAPSHOT_TAIL_CHARS - 200) < yaml.length - SNAPSHOT_TAIL_CHARS
    · exfalso
      have hmin : min o (yaml.length - SNAPSHOT_TAIL_CHARS) =
          yaml.length - SNAPSHOT_TAIL_CHARS := Nat.min_eq_right (by omega)
      rw [hmin] at hc
      omega
    · rw [iterRanges_unfold_none yaml o
        (by rw [window_nextOffset_big yaml h o, if_neg hc])] at hr
      rcases List.mem_singleton.mp hr with rfl
      unfold windowRange
      dsimp only
      exact le_refl _
  | succ k ih =>
    intro o hk r hr
    by_cases hc : min o (yaml.length - SNAPSHOT_TAIL_CHARS) +
        (MAX_SNAPSHOT_CHARS - SNAPSHOT_TAIL_CHARS - 200) < yaml.length - SNAPSHOT_TAIL_CHARS
    · have hoT : o < yaml.length - SNAPSHOT_TAIL_CHARS := by
        by_contra hno
        rw [Nat.min_eq_right (by omega)] at hc
        omega
      have hmin : min o (yaml.length - SNAPSHOT_TAIL_CHARS) = o :=
        Nat.min_eq_left (by omega)
      have hn : (windowSnapshot yaml (Int.ofNat o)).nextOffset =
          some (o + (MAX_SNAPSHOT_CHARS - SNAPSHOT_TAIL_CHARS - 200)) := by
        rw [window_nextOffset_big yaml h o, if_pos hc, hmin]
      have hcc : o + (MAX_SNAPSHOT_CHARS - SNAPSHOT_TAIL_CHARS - 200) <
          yaml.length - SNAPSHOT_TAIL_CHARS := by rw [hmin] at hc; exact hc
      have hguard : ¬(yaml.length - o ≤
          yaml.length - (o + (MAX_SNAPSHOT_CHARS - SNAPSHOT_TAIL_CHARS - 200))) := by
        omega
      rw [iterRanges_unfold_some yaml o _ hn hguard] at hr
      rcases List.mem_cons.mp hr with rfl | hr
      · unfold windowRange
        dsimp only
        exact le_refl _
      · have := ih (o + (MAX_SNAPSHOT_CHARS - SNAPSHOT_TAIL_CHARS - 200)) (by omega) r hr
        omega
    · rw [iterRanges_unfold_none yaml o
        (by rw [window_nextOffset_big yaml h o, if_neg hc])] at hr
      rcases List.mem_singleton.mp hr with rfl
      unfold windowRange
      dsimp only
      exact le_refl _

theorem iter_cover_exact (yaml : List Char) (h : MAX_SNAPSHOT_CHARS < yaml.length) :
    ∀ k o, yaml.length - o ≤ k → o < yaml.length - SNAPSHOT_TAIL_CHARS →
      ∀ i, o ≤ i → i < yaml.length - SNAPSHOT_TAIL_CHARS →
        (iterRanges yaml o).countP (inRange i) = 1 := by
  have hM : MAX_SNAPSHOT_CHARS = 80000 := rfl
  have hT : SNAPSHOT_TAIL_CHARS = 5000 := rfl
  intro k
  induction k with
  | zero =>
    intro o hk ho i hoi hiT
    omega
  | succ k ih =>
    intro o hk ho i hoi hiT
    have hmin : min o (yaml.length - SNAPSHOT_TAIL_CHARS) = o :=
      Nat.min_eq_left (by omega)
    by_cases hc : o + (MAX_SNAPSHOT_CHARS - SNAPSHOT_TAIL_CHARS - 200) <
        yaml.length - SNAPSHOT_TAIL_CHARS
    · have hn : (windowSnapshot yaml (Int.ofNat o)).nextOffset =
          some (o + (MAX_SNAPSHOT_CHARS - SNAPSHOT_TAIL_CHARS - 200)) := by
        rw [window_nextOffset_big yaml h o, hmin, if_pos hc]
      have hguard : ¬(yaml.length - o ≤
          yaml.length - (o + (MAX_SNAPSHOT_CHARS - SNAPSHOT_TAIL_CHARS - 200))) := by
        omega
      rw [iterRanges_unfold_some yaml o _ hn hguard, List.countP_cons]
      by_cases hi : i < o + (MAX_SNAPSHOT_CHARS - SNAPSHOT_TAIL_CHARS - 200)
      · have hhead : inRange i (windowRange yaml o) = true := by
          simp only [inRange, windowRange, Bool.and_eq_true, decide_eq_true_eq]
          omega
        have htail : (iterRanges yaml
            (o + (MAX_SNAPSHOT_CHARS - SNAPSHOT_TAIL_CHARS - 200))).countP (inRange i) = 0 := by
          rw [List.countP_eq_zero]
          intro r hr
          have := iter_lb yaml h yaml.length
            (o + (MAX_SNAPSHOT_CHARS - SNAPSHOT_TAIL_CHARS - 200)) (by omega) r hr
          simp only [inRange, Bool.and_eq_true, decide_eq_true_eq]
          omega
        rw [htail, hhead]
        simp
      · have hhead : inRange i (windowRange yaml o) = false := by
          simp only [inRange, windowRange]
          rw [Bool.and_eq_false_iff]
          right
          simp only [decide_eq_false_iff_not]
          omega
        rw [hhead]
        have := ih (o + (MAX_SNAPSHOT_CHARS - SNAPSHOT_TAIL_CHARS - 200)) (by omega)
          (by omega) i (by omega) hiT
        simpa using this
    · rw [iterRanges_unfold_none yaml o
        (by rw [window_nextOffset_big yaml h o, hmin, if_neg hc])]
      have hhead : inRange i (windowRange yaml o) = true := by
        simp only [inRange, windowRange, Bool.and_eq_true, decide_eq_true_eq]
        omega
      simp [List.countP_cons, hhead]

theorem iter_atmost (yaml : List Char) (h : MAX_SNAPSHOT_CHARS < yaml.length) :
    ∀ k o i, yaml.length - o ≤ k →
      (iterRanges yaml o).countP (inRange i) ≤ 1 := by
  have hM : MAX_SNAPSHOT_CHARS = 80000 := rfl
  have hT : SNAPSHOT_TAIL_CHARS = 5000 := rfl
  intro k
  induction k with
  | zero =>
    intro o i hk
    by_cases hc : min o (yaml.length - SNAPSHOT_TAIL_CHARS) +
        (MAX_SNAPSHOT_CHARS - SNAPSHOT_TAIL_CHARS - 200) < yaml.length - SNAPSHOT_TAIL_CHARS
    · exfalso
      rw [Nat.min_eq_right (by omega)] at hc
      omega
    · rw [iterRanges_unfold_none yaml o
        (by rw [window_nextOffset_big yaml h o, if_neg hc])]
      rw [List.countP_cons]
      simp [List.countP_nil]
      split <;> omega
  | succ k ih =>
    intro o i hk
    by_cases hc : min o (yaml.length - SNAPSHOT_TAIL_CHARS) +
        (MAX_SNAPSHOT_CHARS - SNAPSHOT_TAIL_CHARS - 200) < yaml.length - SNAPSHOT_TAIL_CHARS
    · have hoT : o < yaml.length - SNAPSHOT_TAIL_CHARS := by
        by_contra hno
        rw [Nat.min_eq_right (by omega)] at hc
        omega
      have hmin : min o (yaml.length - SNAPSHOT_TAIL_CHARS) = o :=
        Nat.min_eq_left (by omega)
      have hcc : o + (MAX_SNAPSHOT_CHARS - SNAPSHOT_TAIL_CHARS - 200) <
          yaml.length - SNAPSHOT_TAIL_CHARS := by rw [hmin] at hc; exact hc
      have hn : (windowSnapshot yaml (Int.ofNat o)).nextOffset =
          some (o + (MAX_SNAPSHOT_CHARS - SNAPSHOT_TAIL_CHARS - 200)) := by
        rw [window_nextOffset_big yaml h o, hmin, if_pos hcc]
      have hguard : ¬(yaml.length - o ≤
          yaml.length - (o + (MAX_SNAPSHOT_CHARS - SNAPSHOT_TAIL_CHARS - 200))) := by
        omega
      rw [iterRanges_unfold_some yaml o _ hn hguard, List.countP_cons]
      by_cases hh : inRange i (windowRange yaml o) = true
      · have hi : i < o + (MAX_SNAPSHOT_CHARS - SNAPSHOT_TAIL_CHARS - 200) := by
          simp only [inRange, windowRange, Bool.and_eq_true, decide_eq_true_eq] at hh
          omega
        have htail : (iterRanges yaml
            (o + (MAX_SNAPSHOT_CHARS - SNAPSHOT_TAIL_CHARS - 200))).countP (inRange i) = 0 := by
          rw [List.countP_eq_zero]
          intro r hr
          have := iter_lb yaml h yaml.length
            (o + (MAX_SNAPSHOT_CHARS - SNAPSHOT_TAIL_CHARS - 200)) (by omega) r hr
          simp only [inRange, Bool.and_eq_true, decide_eq_true_eq]
          omega
        rw [htail, hh]
        simp
      · rw [Bool.not_eq_true] at hh
        rw [hh]
        have := ih (o + (MAX_SNAPSHOT_CHARS - SNAPSHOT_TAIL_CHARS - 200)) i (by omega)
        simpa using this
    · rw [iterRanges_unfold_none yaml o
        (by rw [window_nextOffset_big yaml h o, if_neg hc])]
      rw [List.countP_cons]
      simp [List.countP_nil]
      split <;> omega

/-- C3 counterexample: for a 150000-character text, the iteration from
offset 0 stops after content slices `[0, 74800)` and `[74800, 149600)`
(`hasMore` is already false at the second call because `149600 ≥
totalLength - SNAPSHOT_TAIL_CHARS = 145000`), so character 149600 — and
the rest of the final 400 characters before the end — lies in *no*
content slice: the slices do not jointly cover the whole text. -/
theorem C3_cover_counterexample :
    MAX_SNAPSHOT_CHARS < (List.replicate 150000 'a').length ∧
    149600 < (List.replicate 150000 'a').length ∧
    (iterRanges (List.replicate 150000 'a') 0).countP (inRange 149600) = 0 := by
  have hlen : (List.replicate 150000 'a').length = 150000 := List.length_replicate _ _
  have h : MAX_SNAPSHOT_CHARS < (List.replicate 150000 'a').length := by
    rw [hlen]
    decide
  have hn0 : (windowSnapshot (List.replicate 150000 'a') (Int.ofNat 0)).nextOffset =
      some 74800 := by
    rw [window_nextOffset_big _ h 0, hlen]
    decide
  have hg0 : ¬((List.replicate 150000 'a').length - 0 ≤
      (List.replicate 150000 'a').length - 74800) := by
    rw [hlen]
    decide
  have hn1 : (windowSnapshot (List.replicate 150000 'a') (Int.ofNat 74800)).nextOffset =
      none := by
    rw [window_nextOffset_big _ h 74800, hlen]
    decide
  rw [iterRanges_unfold_some _ 0 74800 hn0 hg0, iterRanges_unfold_none _ 74800 hn1]
  have w0 : windowRange (List.replicate 150000 'a') 0 = (0, 74800) := by
    unfold windowRange
    rw [hlen]
    decide
  have w1 : windowRange (List.replicate 150000 'a') 74800 = (74800, 149600) := by
    unfold windowRange
    rw [hlen]
    decide
  rw [w0, w1]
  exact ⟨h, by rw [hlen]; decide, by decide⟩

/-- C3 (amended): iterating `windowSnapshot` from offset 0 by feeding back
`nextOffset` yields pairwise-disjoint consecutive content slices that
cover every character index below `totalLength - SNAPSHOT_TAIL_CHARS`
exactly once (an index may be skipped only inside the final
`SNAPSHOT_TAIL_CHARS` region); every index lies in at most one content
slice; every returned chunk ends with the fixed 5000-character tail of
the text (so the skipped region is still delivered in every chunk); and
each chunk is exactly content-slice ++ marker ++ tail. -/
theorem C3_amended_window_iteration (yaml : List Char)
    (h : MAX_SNAPSHOT_CHARS < yaml.length) :
    (∀ i, i < yaml.length - SNAPSHOT_TAIL_CHARS →
       (iterRanges yaml 0).countP (inRange i) = 1) ∧
    (∀ i, (iterRanges yaml 0).countP (inRange i) ≤ 1) ∧
    (∀ off : Int, List.IsSuffix (yaml.drop (yaml.length - SNAPSHOT_TAIL_CHARS))
       (windowSnapshot yaml off).text) ∧
    (∀ o : Nat, (windowSnapshot yaml (Int.ofNat o)).text =
       ((yaml.take (windowRange yaml o).2).drop (windowRange yaml o).1) ++
       snapshotMarker (min o (yaml.length - SNAPSHOT_TAIL_CHARS) +
         (MAX_SNAPSHOT_CHARS - SNAPSHOT_TAIL_CHARS - 200)) yaml.length
         (windowSnapshot yaml (Int.ofNat o)).hasMore ++
       yaml.drop (yaml.length - SNAPSHOT_TAIL_CHARS)) := by
  have hM : MAX_SNAPSHOT_CHARS = 80000 := rfl
  have hT : SNAPSHOT_TAIL_CHARS = 5000 := rfl
  exact ⟨fun i hi => iter_cover_exact yaml h yaml.length 0 (by omega) (by omega) i
      (by omega) hi,
    fun i => iter_atmost yaml h yaml.length 0 i (by omega),
    fun off => window_tail_suffix yaml h off,
    fun o => window_text_decompose yaml h o⟩

/-- C3 witness at a concrete oversized text (100000 characters). -/
theorem C3_amended_window_iteration_witness :
    MAX_SNAPSHOT_CHARS < (List.replicate 100000 'a').length ∧
    ((∀ i, i < (List.replicate 100000 'a').length - SNAPSHOT_TAIL_CHARS →
       (iterRanges (List.replicate 100000 'a') 0).countP (inRange i) = 1) ∧
     (∀ i, (iterRanges (List.replicate 100000 'a') 0).countP (inRange i) ≤ 1) ∧
     (∀ off : Int, List.IsSuffix
        ((List.replicate 100000 'a').drop ((List.replicate 100000 'a').length -
          SNAPSHOT_TAIL_CHARS))
        (windowSnapshot (List.replicate 100000 'a') off).text) ∧
     (∀ o : Nat, (windowSnapshot (List.replicate 100000 'a') (Int.ofNat o)).text =
       (((List.replicate 100000 'a').take
           (windowRange (List.replicate 100000 'a') o).2).drop
         (windowRange (List.replicate 100000 'a') o).1) ++
       snapshotMarker (min o ((List.replicate 100000 'a').length - SNAPSHOT_TAIL_CHARS) +
         (MAX_SNAPSHOT_CHARS - SNAPSHOT_TAIL_CHARS - 200)) (List.replicate 100000 'a').length
         (windowSnapshot (List.replicate 100000 'a') (Int.ofNat o)).hasMore ++
       (List.replicate 100000 'a').drop ((List.replicate 100000 'a').length -
         SNAPSHOT_TAIL_CHARS))) :=
  ⟨by rw [List.length_replicate]; decide,
   C3_amended_window_iteration (List.replicate 100000 'a')
     (by rw [List.length_replicate]; decide)⟩

/-- C1 counterexample: for the two-line tree `- button "OK"` / `- button
"OK"`, the build pass assigns `e1` to occurrence 0 and `e2` to occurrence
1, and the primary snapshot endpoint annotates accordingly; but the
OpenClaw alias annotate pass (`GET /snapshot`) keys its map by
`role:name` only, first entry wins, and performs no occurrence counting —
so it labels *both* lines `[e1]`: the second line is annotated with a ref
ID belonging to a different element. -/
theorem C1_openclaw_annotate_counterexample :
    buildRefs ["- button \"OK\"", "- button \"OK\""] =
      [("e1", { role := "button", name := "OK", nth := 0 }),
       ("e2", { role := "button", name := "OK", nth := 1 })] ∧
    annotateSnapshotOC (buildRefs ["- button \"OK\"", "- button \"OK\""])
        "- button \"OK\"\n- button \"OK\"" =
      "- button [e1] \"OK\"\n- button [e1] \"OK\"" ∧
    annotateSnapshot (buildRefs ["- button \"OK\"", "- button \"OK\""])
        "- button \"OK\"\n- button \"OK\"" =
      "- button \"OK\" [e1]\n- button \"OK\" [e2]" := by
  refine ⟨?_, ?_, ?_⟩ <;> decide

theorem parseNameGroup_append {cs : List Char} {raw : List Char} {nm : String}
    {r5 : List Char} (h : parseNameGroup cs = some (raw, nm, r5)) :
    cs = raw ++ r5 := by
  unfold parseNameGroup at h
  dsimp only at h
  split at h
  · cases h
  · split at h
    · next r2 heq =>
      split at h
      · next r4 heq2 =>
        simp only [Option.some.injEq, Prod.mk.injEq] at h
        obtain ⟨h1, _, h3⟩ := h
        subst h1
        subst h3
        have e1 : cs.takeWhile jsSpace ++ cs.dropWhile jsSpace = cs :=
          List.takeWhile_append_dropWhile _ _
        have e2 : r2.takeWhile (fun c => c != '"') ++ r2.dropWhile (fun c => c != '"') = r2 :=
          List.takeWhile_append_dropWhile _ _
        have step1 : cs = cs.takeWhile jsSpace ++ '"' :: r2 := by
          rw [← heq]
          exact e1.symm
        have step2 : r2 = r2.takeWhile (fun c => c != '"') ++ '"' :: r4 := by
          rw [← heq2]
          exact e2.symm
        have big : cs = cs.takeWhile jsSpace ++
            '"' :: (r2.takeWhile (fun c => c != '"') ++ '"' :: r4) :=
          step1.trans (congrArg (fun x => cs.takeWhile jsSpace ++ '"' :: x) step2)
        exact big.trans (by simp)
      · cases h
    · cases h

theorem parseHead_append {cs : List Char} {m : NodeMatch}
    (h : parseHead cs = some m) : ∃ us, cs = us ++ m.rest := by
  unfold parseHead at h
  dsimp only at h
  split at h
  · next r2 heq =>
    split at h
    · cases h
    · split at h
      · cases h
      · have e1 : cs.takeWhile jsSpace ++ cs.dropWhile jsSpace = cs :=
          List.takeWhile_append_dropWhile _ _
        have e2 : r2.takeWhile jsSpace ++ r2.dropWhile jsSpace = r2 :=
          List.takeWhile_append_dropWhile _ _
        have e3 : (r2.dropWhile jsSpace).takeWhile wordChar ++
            (r2.dropWhile jsSpace).dropWhile wordChar = r2.dropWhile jsSpace :=
          List.takeWhile_append_dropWhile _ _
        have step1 : cs = cs.takeWhile jsSpace ++ '-' :: r2 := by
          rw [← heq]
          exact e1.symm
        split at h
        · next raw nm r5 heq2 =>
          simp only [Option.some.injEq] at h
          subst h
          have e4 : (r2.dropWhile jsSpace).dropWhile wordChar = raw ++ r5 :=
            parseNameGroup_append heq2
          have step3 : r2.dropWhile jsSpace =
              (r2.dropWhile jsSpace).takeWhile wordChar ++ (raw ++ r5) := by
            rw [← e4]
            exact e3.symm
          have step2 : r2 = r2.takeWhile jsSpace ++
              ((r2.dropWhile jsSpace).takeWhile wordChar ++ (raw ++ r5)) := by
            rw [← step3]
            exact e2.symm
          have big : cs = cs.takeWhile jsSpace ++ '-' :: (r2.takeWhile jsSpace ++
              ((r2.dropWhile jsSpace).takeWhile wordChar ++ (raw ++ r5))) :=
            step1.trans (congrArg (fun x => cs.takeWhile jsSpace ++ '-' :: x) step2)
          exact ⟨cs.takeWhile jsSpace ++ '-' :: (r2.takeWhile jsSpace ++
            ((r2.dropWhile jsSpace).takeWhile wordChar ++ raw)), big.trans (by simp)⟩
        · simp only [Option.some.injEq] at h
          subst h
          have step3 : r2.dropWhile jsSpace =
              (r2.dropWhile jsSpace).takeWhile wordChar ++
                (r2.dropWhile jsSpace).dropWhile wordChar := e3.symm
          have step2 : r2 = r2.takeWhile jsSpace ++
              ((r2.dropWhile jsSpace).takeWhile wordChar ++
                (r2.dropWhile jsSpace).dropWhile wordChar) := by
            rw [← step3]
            exact e2.symm
          have big : cs = cs.takeWhile jsSpace ++ '-' :: (r2.takeWhile jsSpace ++
              ((r2.dropWhile jsSpace).takeWhile wordChar ++
                (r2.dropWhile jsSpace).dropWhile wordChar)) :=
            step1.trans (congrArg (fun x => cs.takeWhile jsSpace ++ '-' :: x) step2)
          exact ⟨cs.takeWhile jsSpace ++ '-' :: (r2.takeWhile jsSpace ++
            (r2.dropWhile jsSpace).takeWhile wordChar), big.trans (by simp)⟩
  · cases h

theorem parseHead_role_word {cs : List Char} {m : NodeMatch}
    (h : parseHead cs = some m) : m.role.data.all wordChar = true := by
  unfold parseHead at h
  dsimp only at h
  split at h
  · split at h
    · cases h
    · split at h
      · cases h
      · split at h
        · simp only [Option.some.injEq] at h
          subst h
          exact List.all_takeWhile
        · simp only [Option.some.injEq] at h
          subst h
          exact List.all_takeWhile
  · cases h

theorem annotateMatch_of_clean {l : String} (hcl : l.data.all jsDotChar = true) :
    annotateMatch l = parseHead l.data := by
  unfold annotateMatch
  cases hp : parseHead l.data with
  | none => rfl
  | some m =>
    rcases parseHead_append hp with ⟨us, hus⟩
    dsimp only
    rw [if_pos]
    rw [hus] at hcl
    rw [List.all_append] at hcl
    exact (Bool.and_eq_true _ _).mp hcl |>.2

theorem lineKey?_role_colonfree {l : String} {r n : String}
    (h : lineKey? l = some (r, n)) : ∀ c ∈ r.data, c ≠ ':' := by
  unfold lineKey? at h
  split at h
  · cases h
  · next role name heqb =>
    unfold buildMatch at heqb
    split at heqb
    · next m hm =>
      simp only [Option.some.injEq, Prod.mk.injEq] at heqb
      obtain ⟨hr, _⟩ := heqb
      dsimp only at h
      by_cases hcb : toLowerStr role = "combobox"
      · rw [if_pos hcb] at h
        cases h
      · rw [if_neg hcb] at h
        by_cases hsg : skipGuard name = true
        · rw [if_pos hsg] at h
          cases h
        · rw [if_neg hsg] at h
          by_cases hir : INTERACTIVE_ROLES.contains (toLowerStr role) = true
          · rw [if_pos hir] at h
            simp only [Option.some.injEq, Prod.mk.injEq] at h
            obtain ⟨h1, _⟩ := h
            subst h1
            subst hr
            exact toLowerStr_ne_colon (parseHead_role_word hm)
          · rw [if_neg hir] at h
            cases h
    · cases heqb

theorem refsByKey_sound (refs : List (String × RefInfo)) (k rId : String)
    (h : refsByKey refs k = some rId) :
    ∃ t, (rId, t) ∈ refs ∧ tkey t.role t.name t.nth = k := by
  unfold refsByKey at h
  suffices hgen : ∀ (l : List (String × RefInfo)) (acc : String → Option String),
      (l.foldl (fun acc p => fun kk =>
        if kk = tkey p.2.role p.2.name p.2.nth then some p.1 else acc kk) acc) k = some rId →
      (∃ t, (rId, t) ∈ l ∧ tkey t.role t.name t.nth = k) ∨ acc k = some rId by
    rcases hgen refs (fun _ => none) h with ⟨t, ht, hk⟩ | hacc
    · exact ⟨t, ht, hk⟩
    · cases hacc
  intro l
  induction l with
  | nil => intro acc h'; exact Or.inr h'
  | cons p ps ih =>
    intro acc h'
    rw [List.foldl_cons] at h'
    rcases ih _ h' with ⟨t, ht, hk⟩ | hacc
    · exact Or.inl ⟨t, List.mem_cons_of_mem _ ht, hk⟩
    · by_cases hkk : k = tkey p.2.role p.2.name p.2.nth
      · rw [if_pos hkk] at hacc
        injection hacc with hacc
        exact Or.inl ⟨p.2, by rw [← hacc, Prod.mk.eta]; exact List.mem_cons_self _ _, hkk.symm⟩
      · rw [if_neg hkk] at hacc
        exact Or.inr hacc

theorem pairwise_snd_unique {l : List (String × RefInfo)} {x y : String} {t : RefInfo}
    (hpw : l.Pairwise (fun a b => a.2 ≠ b.2))
    (hx : (x, t) ∈ l) (hy : (y, t) ∈ l) : x = y := by
  induction l with
  | nil => cases hx
  | cons p ps ih =>
    rcases List.pairwise_cons.mp hpw with ⟨hhead, htail⟩
    rcases List.mem_cons.mp hx with hx1 | hx1
    · rcases List.mem_cons.mp hy with hy1 | hy1
      · rw [← hx1] at hy1
        exact (Prod.mk.injEq _ _ _ _ ▸ hy1.symm).1
      · exfalso
        exact hhead _ hy1 (by rw [← hx1])
    · rcases List.mem_cons.mp hy with hy1 | hy1
      · exfalso
        exact hhead _ hx1 (by rw [← hy1])
      · exact ih htail hx1 hy1

theorem buildMatch_some {l : String} {role : String} {name : Option String}
    (h : buildMatch l = some (role, name)) :
    ∃ m, parseHead l.data = some m ∧ m.role = role ∧ m.name = name := by
  unfold buildMatch at h
  split at h
  · next m hm =>
    simp only [Option.some.injEq, Prod.mk.injEq] at h
    exact ⟨m, hm, h.1, h.2⟩
  · cases h

theorem buildStep_inv (st : BuildState) (l : String)
    (h1 : ∀ p ∈ st.refs, ∀ c ∈ p.2.role.data, c ≠ ':')
    (h2 : ∀ p ∈ st.refs, p.2.nth < st.seenCounts (ckey p.2.role p.2.name))
    (h3 : st.refs.Pairwise (fun a b => a.2 ≠ b.2)) :
    (∀ p ∈ (buildStep st l).refs, ∀ c ∈ p.2.role.data, c ≠ ':') ∧
    (∀ p ∈ (buildStep st l).refs,
      p.2.nth < (buildStep st l).seenCounts (ckey p.2.role p.2.name)) ∧
    (buildStep st l).refs.Pairwise (fun a b => a.2 ≠ b.2) := by
  unfold buildStep
  cases hbm : buildMatch l with
  | none => exact ⟨h1, h2, h3⟩
  | some rn =>
    rcases rn with ⟨role, name⟩
    rcases buildMatch_some hbm with ⟨m, hm, hrole, _⟩
    dsimp only
    by_cases hcb : toLowerStr role = "combobox"
    · rw [if_pos hcb]
      exact ⟨h1, h2, h3⟩
    · rw [if_neg hcb]
      by_cases hsg : skipGuard name = true
      · rw [if_pos hsg]
        exact ⟨h1, h2, h3⟩
      · rw [if_neg hsg]
        by_cases hir : INTERACTIVE_ROLES.contains (toLowerStr role) = true
        · rw [if_pos hir]
          refine ⟨?_, ?_, ?_⟩
          · intro p hp
            rcases List.mem_append.mp hp with hp | hp
            · exact h1 p hp
            · rcases List.mem_singleton.mp hp with rfl
              intro c hcm
              exact toLowerStr_ne_colon (hrole ▸ parseHead_role_word hm) c hcm
          · intro p hp
            rcases List.mem_append.mp hp with hp | hp
            · have := h2 p hp
              dsimp only
              by_cases hk : ckey p.2.role p.2.name =
                  ckey (toLowerStr role) (name.getD "")
              · rw [if_pos hk]
                rw [hk] at this
                omega
              · rw [if_neg hk]
                exact this
            · rcases List.mem_singleton.mp hp with rfl
              dsimp only
              rw [if_pos rfl]
              omega
          · rw [List.pairwise_append]
            refine ⟨h3, List.pairwise_singleton _ _, ?_⟩
            intro a ha b hb
            rcases List.mem_singleton.mp hb with rfl
            intro he
            have hbound := h2 a ha
            rw [he] at hbound
            dsimp only at hbound
            omega
        · rw [if_neg hir]
          exact ⟨h1, h2, h3⟩

theorem buildRefsGo_inv : ∀ (ls : List String) (st : BuildState),
    (∀ p ∈ st.refs, ∀ c ∈ p.2.role.data, c ≠ ':') →
    (∀ p ∈ st.refs, p.2.nth < st.seenCounts (ckey p.2.role p.2.name)) →
    st.refs.Pairwise (fun a b => a.2 ≠ b.2) →
    (∀ p ∈ buildRefsGo st ls, ∀ c ∈ p.2.role.data, c ≠ ':') ∧
    (buildRefsGo st ls).Pairwise (fun a b => a.2 ≠ b.2) := by
  intro ls
  induction ls with
  | nil =>
    intro st h1 h2 h3
    exact ⟨h1, h3⟩
  | cons l ls ih =>
    intro st h1 h2 h3
    unfold buildRefsGo
    by_cases hc : st.refCounter > MAX_SNAPSHOT_NODES
    · rw [if_pos hc]
      exact ⟨h1, h3⟩
    · rw [if_neg hc]
      obtain ⟨g1, g2, g3⟩ := buildStep_inv st l h1 h2 h3
      exact ih _ g1 g2 g3

theorem buildRefs_colonfree (lines : List String) :
    ∀ p ∈ buildRefs lines, ∀ c ∈ p.2.role.data, c ≠ ':' :=
  (buildRefsGo_inv lines { refCounter := 1, seenCounts := fun _ => 0, refs := [] }
    (by intro p hp; cases hp) (by intro p hp; cases hp) List.Pairwise.nil).1

theorem buildRefs_pairwise (lines : List String) :
    (buildRefs lines).Pairwise (fun a b => a.2 ≠ b.2) :=
  (buildRefsGo_inv lines { refCounter := 1, seenCounts := fun _ => 0, refs := [] }
    (by intro p hp; cases hp) (by intro p hp; cases hp) List.Pairwise.nil).2

theorem count_map_ckey (L : List (String × String)) (r n : String)
    (hr : ∀ c ∈ r.data, c ≠ ':')
    (hL : ∀ q ∈ L, ∀ c ∈ q.1.data, c ≠ ':') :
    (L.map (fun q => ckey q.1 q.2)).count (ckey r n) = L.count (r, n) := by
  induction L with
  | nil => rfl
  | cons q qs ih =>
    rw [List.map_cons, List.count_cons, List.count_cons,
      ih (fun p hp => hL p (List.mem_cons_of_mem _ hp))]
    congr 1
    by_cases he : q = (r, n)
    · subst he
      simp
    · have h1 : (ckey q.1 q.2 == ckey r n) = false := by
        rw [beq_eq_false_iff_ne]
        intro hk
        rcases ckey_inj (hL q (List.mem_cons_self _ _)) hr hk with ⟨ha, hb⟩
        exact he (Prod.ext ha hb)
      have h2 : (q == (r, n)) = false := beq_false_of_ne he
      rw [h1, h2]

theorem getD_append_cons {α : Type} (pre : List α) (a : α) (ls : List α) (d : α) :
    (pre ++ a :: ls).getD pre.length d = a := by
  induction pre with
  | nil => rfl
  | cons x xs ih => simpa using ih

theorem annotateLine_of_none (byKey : String → Option String) (counts : String → Nat)
    (l : String) (hcl : l.data.all jsDotChar = true) (hlk : lineKey? l = none) :
    annotateLine byKey counts l = (l, counts) := by
  unfold annotateLine
  rw [annotateMatch_of_clean hcl]
  cases hp : parseHead l.data with
  | none => rfl
  | some m =>
    dsimp only
    have hbm : buildMatch l = some (m.role, m.name) := by
      unfold buildMatch
      rw [hp]
    unfold lineKey? at hlk
    rw [hbm] at hlk
    dsimp only at hlk
    by_cases hcb : toLowerStr m.role = "combobox"
    · rw [if_pos hcb]
    · rw [if_neg hcb]
      rw [if_neg hcb] at hlk
      by_cases hsg : skipGuard m.name = true
      · rw [if_pos hsg]
      · rw [if_neg hsg]
        rw [if_neg hsg] at hlk
        by_cases hir : INTERACTIVE_ROLES.contains (toLowerStr m.role) = true
        · rw [if_pos hir] at hlk
          cases hlk
        · rw [if_neg hir]

theorem annotateLine_of_some (byKey : String → Option String) (counts : String → Nat)
    (l : String) (hcl : l.data.all jsDotChar = true) (r n : String)
    (hlk : lineKey? l = some (r, n)) :
    ∃ m, annotateMatch l = some m ∧ toLowerStr m.role = r ∧ m.name.getD "" = n ∧
      annotateLine byKey counts l =
        ((match byKey (tkey r n (counts (ckey r n))) with
          | some refId => spliceWith m refId
          | none => l),
         fun k => if k = ckey r n then counts (ckey r n) + 1 else counts k) := by
  unfold annotateLine
  rw [annotateMatch_of_clean hcl]
  cases hp : parseHead l.data with
  | none =>
    exfalso
    unfold lineKey? buildMatch at hlk
    rw [hp] at hlk
    cases hlk
  | some m =>
    have hbm : buildMatch l = some (m.role, m.name) := by
      unfold buildMatch
      rw [hp]
    unfold lineKey? at hlk
    rw [hbm] at hlk
    dsimp only at hlk
    refine ⟨m, rfl, ?_⟩
    dsimp only
    by_cases hcb : toLowerStr m.role = "combobox"
    · rw [if_pos hcb] at hlk
      cases hlk
    · rw [if_neg hcb] at hlk ⊢
      by_cases hsg : skipGuard m.name = true
      · rw [if_pos hsg] at hlk
        cases hlk
      · rw [if_neg hsg] at hlk ⊢
        by_cases hir : INTERACTIVE_ROLES.contains (toLowerStr m.role) = true
        · rw [if_pos hir] at hlk
          simp only [Option.some.injEq, Prod.mk.injEq] at hlk
          obtain ⟨h1, h2⟩ := hlk
          rw [if_pos hir]
          subst h1
          subst h2
          refine ⟨rfl, rfl, ?_⟩
          cases byKey (tkey (toLowerStr m.role) (m.name.getD "")
            (counts (ckey (toLowerStr m.role) (m.name.getD "")))) <;> rfl
        · rw [if_neg hir] at hlk
          cases hlk

theorem annotateLines_cons (byKey : String → Option String) (counts : String → Nat)
    (l : String) (ls : List String) :
    annotateLines byKey counts (l :: ls) =
      (annotateLine byKey counts l).1 ::
        annotateLines byKey (annotateLine byKey counts l).2 ls := rfl

theorem filterMap_colonfree (pre : List String) :
    ∀ q ∈ pre.filterMap lineKey?, ∀ c ∈ q.1.data, c ≠ ':' := by
  intro q hq
  rcases List.mem_filterMap.mp hq with ⟨l', _, hl'⟩
  rcases q with ⟨qr, qn⟩
  exact lineKey?_role_colonfree hl'

theorem annotateLines_spec (lines0 : List String)
    (hclean0 : ∀ l ∈ lines0, l.data.all jsDotChar = true) :
    ∀ (suf pre : List String), lines0 = pre ++ suf →
      ∀ j, j < suf.length →
        ((annotateLines (refsByKey (buildRefs lines0))
            (fun k => ((pre.filterMap lineKey?).map (fun q => ckey q.1 q.2)).count k)
            suf).getD j "" = suf.getD j "") ∨
        (∃ m refId t,
          annotateMatch (suf.getD j "") = some m ∧
          (annotateLines (refsByKey (buildRefs lines0))
            (fun k => ((pre.filterMap lineKey?).map (fun q => ckey q.1 q.2)).count k)
            suf).getD j "" = spliceWith m refId ∧
          docTriple lines0 (pre.length + j) = some t ∧
          (refId, t) ∈ buildRefs lines0 ∧
          (∀ p ∈ buildRefs lines0, p.2 = t → p.1 = refId)) := by
  intro suf
  induction suf with
  | nil =>
    intro pre happ j hj
    simp at hj
  | cons l ls ih =>
    intro pre happ j hj
    have hl_mem : l ∈ lines0 := by
      rw [happ]
      exact List.mem_append.mpr (Or.inr (List.mem_cons_self l ls))
    have hcl : l.data.all jsDotChar = true := hclean0 l hl_mem
    have happ' : lines0 = (pre ++ [l]) ++ ls := by
      rw [happ]
      simp
    cases hlk : lineKey? l with
    | none =>
      have hstep := annotateLine_of_none (refsByKey (buildRefs lines0))
        (fun k => ((pre.filterMap lineKey?).map (fun q => ckey q.1 q.2)).count k) l hcl hlk
      have hcnt : (fun k => ((pre.filterMap lineKey?).map (fun q => ckey q.1 q.2)).count k) =
          (fun k => (((pre ++ [l]).filterMap lineKey?).map (fun q => ckey q.1 q.2)).count k) := by
        funext k
        rw [List.filterMap_append]
        simp [List.filterMap, hlk]
      rw [annotateLines_cons, hstep]
      cases j with
      | zero => exact Or.inl rfl
      | succ j' =>
        have harith : (pre ++ [l]).length + j' = pre.length + (j' + 1) := by
          simp
          omega
        have hlen : j' < ls.length := by
          simp at hj
          omega
        have := ih (pre ++ [l]) happ' j' hlen
        rw [← hcnt, harith] at this
        simpa using this
    | some rn =>
      rcases rn with ⟨r, n⟩
      obtain ⟨m, hm, hrole, hname, hstep⟩ := annotateLine_of_some
        (refsByKey (buildRefs lines0))
        (fun k => ((pre.filterMap lineKey?).map (fun q => ckey q.1 q.2)).count k) l hcl r n hlk
      have hcnt : (fun k => if k = ckey r n then
            ((pre.filterMap lineKey?).map (fun q => ckey q.1 q.2)).count (ckey r n) + 1
          else ((pre.filterMap lineKey?).map (fun q => ckey q.1 q.2)).count k) =
          (fun k => (((pre ++ [l]).filterMap lineKey?).map (fun q => ckey q.1 q.2)).count k) := by
        funext k
        rw [List.filterMap_append, List.map_append, List.count_append]
        by_cases hk : k = ckey r n
        · subst hk
          simp [List.filterMap, hlk, List.count_cons]
        · rw [if_neg hk]
          have : (([l].filterMap lineKey?).map (fun q => ckey q.1 q.2)).count k = 0 := by
            simp only [List.filterMap, hlk]
            simp [List.count_cons, Ne.symm hk]
          rw [this]
          omega
      rw [annotateLines_cons, hstep]
      cases j with
      | zero =>
        cases hby : refsByKey (buildRefs lines0)
            (tkey r n (((pre.filterMap lineKey?).map (fun q => ckey q.1 q.2)).count (ckey r n)))
          with
        | none =>
          exact Or.inl rfl
        | some refId =>
          right
          have hr_cf : ∀ c ∈ r.data, c ≠ ':' := lineKey?_role_colonfree hlk
          have hcount : ((pre.filterMap lineKey?).map (fun q => ckey q.1 q.2)).count (ckey r n) =
              docCount lines0 pre.length (r, n) := by
            unfold docCount
            rw [happ, List.take_left]
            exact count_map_ckey _ r n hr_cf (filterMap_colonfree pre)
          have hdoc : docTriple lines0 (pre.length + 0) = some
              { role := r, name := n, nth := docCount lines0 pre.length (r, n) } := by
            rw [Nat.add_zero]
            unfold docTriple
            rw [show lines0.getD pre.length "" = l by rw [happ]; exact getD_append_cons _ _ _ _]
            rw [hlk]
          rcases refsByKey_sound _ _ _ hby with ⟨t', ht'mem, ht'key⟩
          have ht'eq : t' = ⟨r, n, docCount lines0 pre.length (r, n)⟩ := by
            obtain ⟨he1, he2, he3⟩ := tkey_inj
              (buildRefs_colonfree lines0 _ ht'mem) hr_cf ht'key
            rw [hcount] at he3
            cases t'
            dsimp at he1 he2 he3
            rw [he1, he2, he3]
          rw [ht'eq] at ht'mem
          refine ⟨m, refId, ⟨r, n, docCount lines0 pre.length (r, n)⟩,
            hm, ?_, hdoc, ht'mem, ?_⟩
          · rfl
          · intro p hp hpt
            exact pairwise_snd_unique (buildRefs_pairwise lines0)
              (by rw [← hpt, Prod.mk.eta]; exact hp) ht'mem
      | succ j' =>
        have harith : (pre ++ [l]).length + j' = pre.length + (j' + 1) := by
          simp
          omega
        have hlen : j' < ls.length := by
          simp at hj
          omega
        have := ih (pre ++ [l]) happ' j' hlen
        rw [← hcnt, harith] at this
        simpa using this

/-- C1: the claim as stated is false for the OpenClaw alias (see the
counterexample), but it holds for the primary `GET /tabs/:tabId/snapshot`
annotate pass on snapshots whose lines are free of carriage returns and
Unicode line separators: every line is either left unchanged or annotated
with exactly the ref ID that `buildRefs` assigned to that line's
document-order `(role, name, occurrence)` triple, and that ref ID is the
only one attached to that triple in the reference table. -/
theorem C1_amended_primary_annotate (lines0 : List String)
    (hclean0 : ∀ l ∈ lines0, l.data.all jsDotChar = true)
    (j : Nat) (hj : j < lines0.length) :
    ((annotateLines (refsByKey (buildRefs lines0)) (fun _ => 0) lines0).getD j ""
        = lines0.getD j "") ∨
    (∃ m refId t,
      annotateMatch (lines0.getD j "") = some m ∧
      (annotateLines (refsByKey (buildRefs lines0)) (fun _ => 0) lines0).getD j ""
        = spliceWith m refId ∧
      docTriple lines0 j = some t ∧
      (refId, t) ∈ buildRefs lines0 ∧
      (∀ p ∈ buildRefs lines0, p.2 = t → p.1 = refId)) := by
  have h := annotateLines_spec lines0 hclean0 lines0 [] rfl j hj
  have hc : (fun k => ((([] : List String).filterMap lineKey?).map
      (fun q => ckey q.1 q.2)).count k) = (fun _ => (0 : Nat)) := by
    funext k
    rfl
  rw [hc] at h
  simp only [List.length_nil, Nat.zero_add] at h
  exact h

theorem C1_amended_primary_annotate_witness :
    (∀ l ∈ ["- button \"A\"", "- link \"B\""], l.data.all jsDotChar = true) ∧
    0 < (["- button \"A\"", "- link \"B\""] : List String).length ∧
    (((annotateLines (refsByKey (buildRefs ["- button \"A\"", "- link \"B\""]))
        (fun _ => 0) ["- button \"A\"", "- link \"B\""]).getD 0 ""
        = (["- button \"A\"", "- link \"B\""] : List String).getD 0 "") ∨
    (∃ m refId t,
      annotateMatch ((["- button \"A\"", "- link \"B\""] : List String).getD 0 "") = some m ∧
      (annotateLines (refsByKey (buildRefs ["- button \"A\"", "- link \"B\""]))
        (fun _ => 0) ["- button \"A\"", "- link \"B\""]).getD 0 ""
        = spliceWith m refId ∧
      docTriple ["- button \"A\"", "- link \"B\""] 0 = some t ∧
      (refId, t) ∈ buildRefs ["- button \"A\"", "- link \"B\""] ∧
      (∀ p ∈ buildRefs ["- button \"A\"", "- link \"B\""], p.2 = t → p.1 = refId))) :=
  ⟨by decide, by decide,
    C1_amended_primary_annotate ["- button \"A\"", "- link \"B\""] (by decide) 0 (by decide)⟩
